import Mathlib

/-!
# Verification of the Smart Composer RAG subsystem

A shallow embedding of the plugin's settings-schema validation
(`src/settings/schema/setting.types.ts`), the plugin's `setSettings`
(`src/main.ts`), the Azure OpenAI provider's embedding entry point
(`src/core/llm/azureOpenaiProvider.ts`), and — since the RAG engine
sources (`core/rag/ragEngine.ts`, chunker, vector manager, embedding
cache) are not part of the available sources — a model of the indexing
and retrieval engine built from the specification's own wording.
-/

namespace SmartComposer

/-! ## JSON values and a model of the zod combinators

The settings schema is written with zod (`z.object`, `z.number().catch`,
...).  We embed the relevant fragment: a parser takes the value found at
a key (`none` when the key is missing, mirroring `undefined`) and either
accepts with a typed result or rejects. -/

/-- Untyped JSON-like runtime values, the inputs of schema validation. -/
inductive Json where
  | null
  | bool (b : Bool)
  | num (q : ℚ)
  | str (s : String)
  | arr (items : List Json)
  | obj (fields : List (String × Json))

/-- The value a zod field schema receives: `none` models a missing key
(`undefined`). -/
abbrev JVal := Option Json

/-- `z.number()`. -/
def zNumber : JVal → Except Unit ℚ
  | some (Json.num q) => Except.ok q
  | _ => Except.error ()

/-- `z.string()`. -/
def zString : JVal → Except Unit String
  | some (Json.str s) => Except.ok s
  | _ => Except.error ()

/-- `z.boolean()`. -/
def zBool : JVal → Except Unit Bool
  | some (Json.bool b) => Except.ok b
  | _ => Except.error ()

/-- `z.literal(v)` for a numeric literal. -/
def zLiteralNum (v : ℚ) : JVal → Except Unit ℚ
  | some (Json.num q) => if q = v then Except.ok q else Except.error ()
  | _ => Except.error ()

/-- `z.array(elem)` where the element schema is given as a predicate;
accepted elements are kept as raw JSON values. -/
def zArrayOf (elemOk : Json → Bool) : JVal → Except Unit (List Json)
  | some (Json.arr items) =>
      if items.all elemOk then Except.ok items else Except.error ()
  | _ => Except.error ()

/-- `z.array(z.string())`. -/
def zStringArray : JVal → Except Unit (List String)
  | some (Json.arr items) =>
      items.mapM (fun j =>
        match j with
        | Json.str s => Except.ok s
        | _ => Except.error ())
  | _ => Except.error ()

/-- `schema.catch(fallback)`: never fails, so it is a total function. -/
def zCatch (p : JVal → Except Unit α) (fallback : α) (j : JVal) : α :=
  match p j with
  | Except.ok a => a
  | Except.error _ => fallback

/-- Field access inside `z.object`: the value at key `k`, or `none` when
the key is absent. -/
def getField (fields : List (String × Json)) (k : String) : JVal :=
  (fields.find? (fun e => e.1 == k)).map (fun e => e.2)

/-! ## The settings schema (`src/settings/schema/setting.types.ts`)

`ragOptionsSchema`, `smartComposerSettingsSchema` and the inline
`mcp` / `chatOptions` / `editorAutocomplete` objects are translated
field by field.  The element schemas `llmProviderSchema`,
`chatModelSchema`, `embeddingModelSchema`, `mcpServerConfigSchema` and
the `DEFAULT_*` constants live in modules that are not part of the
available sources, so they are kept abstract in a `SchemaEnv` bundle
and all theorems quantify over them. -/

/-- Result type of `ragOptionsSchema`. -/
structure RagOptions where
  chunkSize : ℚ
  thresholdTokens : ℚ
  minSimilarity : ℚ
  limit : ℚ
  excludePatterns : List String
  includePatterns : List String
deriving DecidableEq, Repr

/-- Result type of the inline `chatOptions` object schema. -/
structure ChatOptions where
  includeCurrentFileContent : Bool
  enableTools : Bool
  maxAutoIterations : ℚ
deriving DecidableEq, Repr

/-- Result type of the inline `editorAutocomplete` object schema. -/
structure EditorAutocompleteOptions where
  enabled : Bool
  minChars : ℚ
  debounceMs : ℚ
  maxTokens : ℚ
  temperature : ℚ
deriving DecidableEq, Repr

/-- Result type of `smartComposerSettingsSchema`; sub-values validated
by schemas outside the available sources are kept as raw JSON. -/
structure SmartComposerSettings where
  version : ℚ
  providers : List Json
  chatModels : List Json
  embeddingModels : List Json
  chatModelId : String
  applyModelId : String
  embeddingModelId : String
  systemPrompt : String
  ragOptions : RagOptions
  mcpServers : List Json
  chatOptions : ChatOptions
  editorAutocomplete : EditorAutocompleteOptions

/-- External schemas and constants imported by `setting.types.ts` from
modules that are not part of the available sources (`constants.ts`,
`types/*.types.ts`, `migrations.ts`). -/
structure SchemaEnv where
  schemaVersion : ℚ
  providerOk : Json → Bool
  chatModelOk : Json → Bool
  embeddingModelOk : Json → Bool
  mcpServerOk : Json → Bool
  defaultProviders : List Json
  defaultChatModels : List Json
  defaultEmbeddingModels : List Json
  defaultChatModelId : String
  defaultApplyModelId : String
  defaultEmbeddingModelId : String

/-- The fallback of `ragOptionsSchema.catch({...})` at
`setting.types.ts:53-60`. -/
def defaultRagOptions : RagOptions :=
  { chunkSize := 1000
    thresholdTokens := 8192
    minSimilarity := 0
    limit := 10
    excludePatterns := []
    includePatterns := [] }

/-- `ragOptionsSchema` (`setting.types.ts:15-22`): a `z.object` whose
fields all carry `.catch` fallbacks. -/
def parseRagOptions : JVal → Except Unit RagOptions
  | some (Json.obj fs) =>
      Except.ok
        { chunkSize := zCatch zNumber 1000 (getField fs "chunkSize")
          thresholdTokens := zCatch zNumber 8192 (getField fs "thresholdTokens")
          minSimilarity := zCatch zNumber 0 (getField fs "minSimilarity")
          limit := zCatch zNumber 10 (getField fs "limit")
          excludePatterns := zCatch zStringArray [] (getField fs "excludePatterns")
          includePatterns := zCatch zStringArray [] (getField fs "includePatterns") }
  | _ => Except.error ()

/-- The inline `mcp` object schema (`setting.types.ts:63-69`). -/
def parseMcp (env : SchemaEnv) : JVal → Except Unit (List Json)
  | some (Json.obj fs) =>
      Except.ok (zCatch (zArrayOf env.mcpServerOk) [] (getField fs "servers"))
  | _ => Except.error ()

/-- The inline `chatOptions` object schema (`setting.types.ts:72-77`);
its three fields carry no `.catch`, only the object as a whole does. -/
def parseChatOptions : JVal → Except Unit ChatOptions
  | some (Json.obj fs) => do
      let a ← zBool (getField fs "includeCurrentFileContent")
      let b ← zBool (getField fs "enableTools")
      let c ← zNumber (getField fs "maxAutoIterations")
      Except.ok { includeCurrentFileContent := a, enableTools := b, maxAutoIterations := c }
  | _ => Except.error ()

/-- The inline `editorAutocomplete` object schema
(`setting.types.ts:85-92`); its fields carry no `.catch`. -/
def parseEditorAutocomplete : JVal → Except Unit EditorAutocompleteOptions
  | some (Json.obj fs) => do
      let a ← zBool (getField fs "enabled")
      let b ← zNumber (getField fs "minChars")
      let c ← zNumber (getField fs "debounceMs")
      let d ← zNumber (getField fs "maxTokens")
      let e ← zNumber (getField fs "temperature")
      Except.ok
        { enabled := a, minChars := b, debounceMs := c, maxTokens := d, temperature := e }
  | _ => Except.error ()

/-- `smartComposerSettingsSchema` (`setting.types.ts:28-100`): a
`z.object` each of whose top-level fields carries a `.catch` fallback;
the object itself carries none, so a non-object input is rejected. -/
def parseSmartComposerSettings (env : SchemaEnv) : JVal → Except Unit SmartComposerSettings
  | some (Json.obj fs) =>
      Except.ok
        { version := zCatch (zLiteralNum env.schemaVersion) env.schemaVersion (getField fs "version")
          providers := zCatch (zArrayOf env.providerOk) env.defaultProviders (getField fs "providers")
          chatModels := zCatch (zArrayOf env.chatModelOk) env.defaultChatModels (getField fs "chatModels")
          embeddingModels :=
            zCatch (zArrayOf env.embeddingModelOk) env.defaultEmbeddingModels
              (getField fs "embeddingModels")
          chatModelId := zCatch zString env.defaultChatModelId (getField fs "chatModelId")
          applyModelId := zCatch zString env.defaultApplyModelId (getField fs "applyModelId")
          embeddingModelId :=
            zCatch zString env.defaultEmbeddingModelId (getField fs "embeddingModelId")
          systemPrompt := zCatch zString "" (getField fs "systemPrompt")
          ragOptions := zCatch parseRagOptions defaultRagOptions (getField fs "ragOptions")
          mcpServers := zCatch (parseMcp env) [] (getField fs "mcp")
          chatOptions :=
            zCatch parseChatOptions
              { includeCurrentFileContent := true, enableTools := true, maxAutoIterations := 1 }
              (getField fs "chatOptions")
          editorAutocomplete :=
            zCatch parseEditorAutocomplete
              { enabled := true, minChars := 5, debounceMs := 300, maxTokens := 50,
                temperature := 1/5 }
              (getField fs "editorAutocomplete") }
  | _ => Except.error ()

/-! ## The plugin's `setSettings` (`src/main.ts:292-319`)

The observable plugin state touched by `setSettings`: the in-memory
settings object, the persisted data (`saveData`), the value last pushed
to the RAG engine, the values delivered to settings-change listeners,
the editor-autocomplete activation flag, and the notices shown. -/

/-- Observable state of `SmartComposerPlugin` as far as `setSettings`
mutates it.  `settings` is kept as the raw JSON value because the source
assigns the *input* object (`this.settings = newSettings`), not the
validated copy. -/
structure PluginState where
  settings : Json
  savedData : List Json
  ragEngineSettings : Option Json
  listenerCalls : List Json
  autocompleteActive : Bool
  notices : List String

/-- `settings.editorAutocomplete.enabled` read off a raw settings
value, as `setSettings` does before and after the assignment. -/
def autocompleteEnabledOf : Json → Bool
  | Json.obj fs =>
      match getField fs "editorAutocomplete" with
      | some (Json.obj efs) =>
          match getField efs "enabled" with
          | some (Json.bool b) => b
          | _ => false
      | _ => false
  | _ => false

/-- `SmartComposerPlugin.setSettings` (`main.ts:292-319`): validate with
`smartComposerSettingsSchema.safeParse`; on failure show a notice and
return early; on success assign the settings, persist them, notify the
RAG engine and the listeners, and reconcile the autocomplete state. -/
def setSettings (env : SchemaEnv) (p : PluginState) (newSettings : Json) : PluginState :=
  match parseSmartComposerSettings env (some newSettings) with
  | Except.error _ => { p with notices := p.notices ++ ["Invalid settings"] }
  | Except.ok _ =>
      let wasEnabled := autocompleteEnabledOf p.settings
      let isEnabled := autocompleteEnabledOf newSettings
      let p1 :=
        { p with
          settings := newSettings
          savedData := p.savedData ++ [newSettings]
          ragEngineSettings := some newSettings
          listenerCalls := p.listenerCalls ++ [newSettings] }
      if wasEnabled != isEnabled then { p1 with autocompleteActive := isEnabled } else p1

/-! ## Azure OpenAI provider (`src/core/llm/azureOpenaiProvider.ts:89-93`) -/

/-- `AzureOpenAIProvider.getEmbedding`: unconditionally throws; the
thrown message is modelled as the `Except.error` payload. -/
def azureOpenAIGetEmbedding (providerId : String) (_model _text : String) :
    Except String (List ℚ) :=
  Except.error
    ("Provider " ++ providerId ++
      " does not support embeddings. Please use a different provider.")

/-! ## The RAG engine

Modelled from the spec: the engine sources (`core/rag/ragEngine.ts`,
the chunker, the embedding cache and the vector manager) are not among
the available sources — only their callers in `main.ts` are — so the
definitions below follow the specification's §3 data model and the §4
component designs word by word. -/

/-- Modelled from the spec: a corpus document as delivered by the
Source Adapter (§3 Document, §6 `listDocuments`/`readContent`). -/
structure VaultFile where
  path : String
  hash : String
  content : String
deriving DecidableEq, Repr

/-- Modelled from the spec: a chunk of a document with its boundary
offsets (§3 Chunk). -/
structure ChunkPiece where
  start : Nat
  stop : Nat
  text : String
deriving DecidableEq, Repr

/-- Whitespace test used by chunk-text normalization. -/
def isWs (c : Char) : Bool :=
  c == ' ' || c == '\n' || c == '\t' || c == '\r'

/-- Modelled from the spec: normalization of chunk text before
fingerprinting (§3: "`contentHash` is derived from normalized chunk
text"); modelled as trimming surrounding whitespace. -/
def normalizeChunk (s : String) : String :=
  String.mk (((s.toList.dropWhile isWs).reverse.dropWhile isWs).reverse)

/-- Modelled from the spec: the content fingerprint, "a deterministic
digest of normalized content" (glossary); modelled as a 32-bit polynomial
rolling digest of the normalized text. -/
def contentHash (s : String) : ℕ :=
  (normalizeChunk s).toList.foldl (fun h c => (h * 31 + c.toNat) % 4294967296) 5381

/-- Index of the last newline inside a prospective chunk, used to prefer
paragraph/line boundaries over mid-text splits (§4.2). -/
def lastNewlinePos (piece : List Char) : Option ℕ :=
  ((piece.enum.filter (fun e => e.2 == '\n')).getLast?).map (fun e => e.1)

/-- Modelled from the spec (§4.2): how many characters the next chunk
takes — the whole rest when it fits in `m`, otherwise up to the last
line boundary inside the first `m` characters when one exists. -/
def chunkCut (m : ℕ) (cs : List Char) : ℕ :=
  if cs.length ≤ m then cs.length
  else
    match lastNewlinePos (cs.take m) with
    | some p => p + 1
    | none => m

theorem one_le_chunkCut (m : ℕ) (hm : 1 ≤ m) (c : Char) (cs : List Char) :
    1 ≤ chunkCut m (c :: cs) := by
  unfold chunkCut
  split
  · simp
  · cases h : lastNewlinePos ((c :: cs).take m) <;> simp [h, hm]

/-- Modelled from the spec (§4.2): split the remaining characters into
chunks, tracking the running start offset. -/
def chunkFrom (m : ℕ) (off : ℕ) : List Char → List ChunkPiece
  | [] => []
  | c :: cs =>
      let k := chunkCut (max m 1) (c :: cs)
      let piece := (c :: cs).take k
      { start := off, stop := off + piece.length, text := String.mk piece } ::
        chunkFrom m (off + piece.length) ((c :: cs).drop k)
  termination_by l => l.length
  decreasing_by
    simp only [List.length_drop, List.length_cons]
    have h1 : 1 ≤ chunkCut (max m 1) (c :: cs) :=
      one_le_chunkCut (max m 1) (le_max_right m 1) c cs
    omega

/-- Modelled from the spec (§4.2): `chunk(document, config)`, a pure
function of the text and the configured chunk size alone. -/
def chunkDoc (chunkSize : ℕ) (content : String) : List ChunkPiece :=
  chunkFrom chunkSize 0 content.toList

/-- Modelled from the spec (§4.1 step 1): glob matching for the
include/exclude patterns, with `*` matching any run of characters and
`?` a single character. -/
def globMatch : List Char → List Char → Bool
  | [], [] => true
  | [], _ :: _ => false
  | p :: ps, [] => p == '*' && globMatch ps []
  | p :: ps, c :: ss =>
      if p == '*' then globMatch ps (c :: ss) || globMatch (p :: ps) ss
      else if p == '?' then globMatch ps ss
      else p == c && globMatch ps ss
  termination_by p s => p.length + s.length
  decreasing_by all_goals simp_arith

/-- Modelled from the spec (§4.1 step 1, §4.5): a path passes when it
matches some include pattern (every path passes an empty include list)
and matches no exclude pattern. -/
def passesFilters (includePatterns excludePatterns : List String) (path : String) : Bool :=
  (includePatterns.isEmpty ||
      includePatterns.any (fun pat => globMatch pat.toList path.toList)) &&
    !(excludePatterns.any (fun pat => globMatch pat.toList path.toList))

/-- Modelled from the spec: a persisted chunk row in the Vector Store
(§3 Chunk + EmbeddingRecord, keyed by document path, chunk position and
model). -/
structure Row where
  path : String
  idx : ℕ
  start : ℕ
  stop : ℕ
  text : String
  chash : ℕ
  vector : List ℚ
  modelId : String
deriving DecidableEq, Repr

/-- Modelled from the spec: engine-owned state — the `IndexState`
(`lastIndexedHash` as an association list plus the active `modelId`),
the Vector Store rows, and the Embedding Cache keyed by
`(modelId, contentHash)` (§3 IndexState, §4.3). -/
structure EngineState where
  modelId : String
  lastIndexedHash : List (String × String)
  store : List Row
  cache : List ((String × ℕ) × List ℚ)
deriving Repr

/-- Modelled from the spec: the configuration the indexing side
consumes (§6 configuration surface). -/
structure RagCfg where
  chunkSize : ℕ
  includePatterns : List String
  excludePatterns : List String
deriving DecidableEq, Repr

/-- Association-list lookup for `lastIndexedHash`. -/
def lookupA (m : List (String × String)) (k : String) : Option String :=
  (m.find? (fun e => e.1 == k)).map (fun e => e.2)

/-- Association-list update for `lastIndexedHash[path] := hash`. -/
def setA : List (String × String) → String → String → List (String × String)
  | [], k, v => [(k, v)]
  | e :: rest, k, v => if e.1 == k then (k, v) :: rest else e :: setA rest k v

/-- `get(contentHash, modelId)` of the Embedding Cache (§4.3). -/
def lookupCache (cache : List ((String × ℕ) × List ℚ)) (m : String) (h : ℕ) :
    Option (List ℚ) :=
  (cache.find? (fun e => e.1.1 == m && e.1.2 == h)).map (fun e => e.2)

/-- Modelled from the spec (§4.1 step 1): the current documents after
the include/exclude glob filters. -/
def currentDocs (cfg : RagCfg) (corpus : List VaultFile) : List VaultFile :=
  corpus.filter (fun d => passesFilters cfg.includePatterns cfg.excludePatterns d.path)

/-- Modelled from the spec (§4.1 step 2): a document is changed when it
is absent from `lastIndexedHash` or its hash differs. -/
def isChanged (m : List (String × String)) (d : VaultFile) : Bool :=
  match lookupA m d.path with
  | none => true
  | some h => h != d.hash

/-- Modelled from the spec (§4.1 step 2): with `reindexAll` every
listed document is treated as changed. -/
def changedDocs (reindexAll : Bool) (m : List (String × String))
    (current : List VaultFile) : List VaultFile :=
  if reindexAll then current else current.filter (isChanged m)

/-- Modelled from the spec (§4.1 step 3): removed documents — present
in `lastIndexedHash`, absent from the listing — lose all their rows and
their `lastIndexedHash` entry. -/
def removePhase (current : List VaultFile) (st : EngineState) : EngineState :=
  let keep := fun (p : String) => current.any (fun d => d.path == p)
  let removed := (st.lastIndexedHash.filter (fun e => !(keep e.1))).map (fun e => e.1)
  { st with
    lastIndexedHash := st.lastIndexedHash.filter (fun e => keep e.1)
    store := st.store.filter (fun r => !(removed.contains r.path)) }

/-- Modelled from the spec (§4.1 step 4): the chunk texts staged for
embedding across the changed documents. -/
def stagedTexts (cfg : RagCfg) (docs : List VaultFile) : List String :=
  (docs.map (fun d => (chunkDoc cfg.chunkSize d.content).map (fun c => c.text))).flatten

/-- Modelled from the spec (§4.1 step 5): the staged chunks whose
content hash is not in the Embedding Cache for the active model. -/
def missTexts (cache : List ((String × ℕ) × List ℚ)) (m : String)
    (texts : List String) : List String :=
  texts.filter (fun t => (lookupCache cache m (contentHash t)).isNone)

/-- Modelled from the spec (§4.1 step 7, §4.3 `put`): record the
freshly embedded vectors in the cache. -/
def extendCache (m : String) (cache : List ((String × ℕ) × List ℚ))
    (pairs : List (String × List ℚ)) : List ((String × ℕ) × List ℚ) :=
  pairs.foldl (fun c tv => ((m, contentHash tv.1), tv.2) :: c) cache

/-- Modelled from the spec (§4.1 steps 6-7): the full row set of one
document, vectors resolved through the (already extended) cache. -/
def docRows (cfg : RagCfg) (cache : List ((String × ℕ) × List ℚ)) (m : String)
    (d : VaultFile) : List Row :=
  (chunkDoc cfg.chunkSize d.content).enum.map (fun ic =>
    { path := d.path
      idx := ic.1
      start := ic.2.start
      stop := ic.2.stop
      text := ic.2.text
      chash := contentHash ic.2.text
      vector := (lookupCache cache m (contentHash ic.2.text)).getD []
      modelId := m })

/-- Modelled from the spec (§4.1 step 4 and §5): a document's rows are
replaced by delete-then-insert. -/
def writeDoc (cfg : RagCfg) (st : EngineState) (d : VaultFile) : EngineState :=
  { st with
    store := st.store.filter (fun r => r.path != d.path) ++ docRows cfg st.cache st.modelId d }

/-- Modelled from the spec (§4.1 step 8): `lastIndexedHash[path] :=
newHash`, only after the whole row set of the document is stored. -/
def commitDoc (st : EngineState) (d : VaultFile) : EngineState :=
  { st with lastIndexedHash := setA st.lastIndexedHash d.path d.hash }

/-- Store, then commit, one changed document. -/
def processDoc (cfg : RagCfg) (st : EngineState) (d : VaultFile) : EngineState :=
  commitDoc (writeDoc cfg st d) d

/-- Process every changed document in order. -/
def finishDocs (cfg : RagCfg) (st : EngineState) (docs : List VaultFile) : EngineState :=
  docs.foldl (processDoc cfg) st

/-- Modelled from the spec (§4.1): `updateIndex`.  Returns the new
engine state together with the list of texts sent to the embedding
provider (the cache misses); the aggregate stats of step 9 are derived
from it. -/
def updateIndex (reindexAll : Bool) (cfg : RagCfg) (embedFn : String → List ℚ)
    (corpus : List VaultFile) (st : EngineState) : EngineState × List String :=
  let current := currentDocs cfg corpus
  let st1 := removePhase current st
  let changed := changedDocs reindexAll st.lastIndexedHash current
  let texts := stagedTexts cfg changed
  let misses := missTexts st.cache st.modelId texts
  let st2 :=
    { st1 with
      cache := extendCache st.modelId st1.cache (misses.map (fun t => (t, embedFn t))) }
  (finishDocs cfg st2 changed, misses)

/-! ## Vector Store query layer (§4.5) -/

/-- Componentwise dot product; `zipWith` truncates at the shorter
vector, but candidates are restricted to matching dimensions. -/
def dot (u v : List ℚ) : ℚ :=
  (List.zipWith (fun a b => a * b) u v).sum

/-- Squared Euclidean norm. -/
def normSq (v : List ℚ) : ℚ := dot v v

/-- Modelled from the spec (§4.5): query configuration. -/
structure QueryCfg where
  limit : ℕ
  minSimilarity : ℚ
  includePatterns : List String
  excludePatterns : List String
deriving DecidableEq, Repr

/-- Modelled from the spec (§3 QueryResult): a returned row with its
reported similarity. -/
structure QueryResult where
  row : Row
  similarity : ℚ
deriving DecidableEq, Repr

/-- Length of the returned chunk's text, the first tie-breaker. -/
def chunkLen (x : QueryResult) : ℕ := x.row.text.length

/-- Modelled from the spec (§4.5): the result order — descending
similarity, ties broken by shorter chunk length, then by lexicographic
path order. -/
def qrLE (a b : QueryResult) : Prop :=
  b.similarity < a.similarity ∨
    (a.similarity = b.similarity ∧
      (chunkLen a < chunkLen b ∨ (chunkLen a = chunkLen b ∧ a.row.path ≤ b.row.path)))

instance : DecidableRel qrLE := fun a b => by
  unfold qrLE; infer_instance

instance : IsTrans QueryResult qrLE where
  trans a b c hab hbc := by
    rcases hab with h1 | ⟨e1, h1⟩
    · rcases hbc with h2 | ⟨e2, h2⟩
      · exact Or.inl (h2.trans h1)
      · exact Or.inl (e2 ▸ h1)
    · rcases hbc with h2 | ⟨e2, h2⟩
      · exact Or.inl (e1 ▸ h2)
      · refine Or.inr ⟨e1.trans e2, ?_⟩
        rcases h1 with h1 | ⟨f1, h1⟩
        · rcases h2 with h2 | ⟨f2, h2⟩
          · exact Or.inl (h1.trans h2)
          · exact Or.inl (f2 ▸ h1)
        · rcases h2 with h2 | ⟨f2, h2⟩
          · exact Or.inl (f1 ▸ h2)
          · exact Or.inr ⟨f1.trans f2, h1.trans h2⟩

instance : IsTotal QueryResult qrLE where
  total a b := by
    rcases lt_trichotomy a.similarity b.similarity with h | h | h
    · exact Or.inr (Or.inl h)
    · rcases lt_trichotomy (chunkLen a) (chunkLen b) with g | g | g
      · exact Or.inl (Or.inr ⟨h, Or.inl g⟩)
      · rcases le_total a.row.path b.row.path with p | p
        · exact Or.inl (Or.inr ⟨h, Or.inr ⟨g, p⟩⟩)
        · exact Or.inr (Or.inr ⟨h.symm, Or.inr ⟨g.symm, p⟩⟩)
      · exact Or.inr (Or.inr ⟨h.symm, Or.inl g⟩)
    · exact Or.inl (Or.inl h)

/-- Modelled from the spec (§4.5): candidate rows — restricted to the
active model, to matching embedding dimensions, to paths passing the
glob filters, and to similarity at least `minSimilarity`.  Vectors are
taken as unit-normalized (as embedding providers return them), so the
cosine similarity — the normalized dot product — is the dot product. -/
def candidateRows (store : List Row) (m : String) (qv : List ℚ) (cfg : QueryCfg) :
    List Row :=
  store.filter (fun r =>
    r.modelId == m && r.vector.length == qv.length &&
      passesFilters cfg.includePatterns cfg.excludePatterns r.path &&
      decide (cfg.minSimilarity ≤ dot qv r.vector))

/-- Modelled from the spec (§4.5): `query(queryVector, config)` — the
candidates scored, sorted, and cut to `limit`. -/
def query (st : EngineState) (qv : List ℚ) (cfg : QueryCfg) : List QueryResult :=
  (List.insertionSort qrLE
      ((candidateRows st.store st.modelId qv cfg).map
        (fun r => { row := r, similarity := dot qv r.vector }))).take
    cfg.limit

/-! ## Embedding Gateway (§4.4, §7) -/

/-- Modelled from the spec (§6): one embedding-provider call outcome. -/
inductive EmbedOutcome where
  | ok (vectors : List (List ℚ))
  | rateLimited
  | fatal (msg : String)

/-- Modelled from the spec (§4.4, §7): retry one batch while the
provider rate-limits, spending one unit of the retry budget per
attempt; each retry re-signals `waitingForRateLimit = true`, a
successful attempt signals `false`; a fatal outcome or an exhausted
budget surfaces an error. -/
def retryBatch (provider : ℕ → EmbedOutcome) :
    ℕ → ℕ → List Bool × Except String (List (List ℚ))
  | 0, _ => ([], Except.error "IndexingFailed: rate limit retries exhausted")
  | fuel + 1, attempt =>
      match provider attempt with
      | EmbedOutcome.ok vs => ([false], Except.ok vs)
      | EmbedOutcome.rateLimited =>
          let r := retryBatch provider fuel (attempt + 1)
          (true :: r.1, r.2)
      | EmbedOutcome.fatal m => ([], Except.error m)

/-- Split the cache-miss texts into provider batches of `batchSize`. -/
def batchSplit (n : ℕ) : List String → List (List String)
  | [] => []
  | t :: ts => ((t :: ts).take (max n 1)) :: batchSplit n ((t :: ts).drop (max n 1))
  termination_by l => l.length
  decreasing_by simp_arith [Nat.sub_lt_succ]

/-- Modelled from the spec (§4.4 `embedBatches`): issue the batches in
order; the signals of every batch are concatenated, a failing batch
fails the whole run, and successful batches yield their `(chunk,
vector)` pairs in order. -/
def embedBatchesFrom (provider : ℕ → ℕ → EmbedOutcome) (fuel : ℕ) :
    ℕ → List (List String) → List Bool × Except String (List (List ℚ))
  | _, [] => ([], Except.ok [])
  | i, _ :: rest =>
      match retryBatch (provider i) fuel 0 with
      | (sigs, Except.error e) => (sigs, Except.error e)
      | (sigs, Except.ok vs) =>
          match embedBatchesFrom provider fuel (i + 1) rest with
          | (sigs2, Except.error e) => (sigs ++ sigs2, Except.error e)
          | (sigs2, Except.ok vss) => (sigs ++ sigs2, Except.ok (vs ++ vss))

/-- Modelled from the spec (§4.1 + §4.4): `updateIndex` with the
embedding calls routed through the rate-limit-aware gateway.  Returns
the `waitingForRateLimit` flags delivered to progress callbacks and
either the final state with the embedded-chunk count or the surfaced
error; on an error no document update is committed. -/
def updateIndexWithProvider (reindexAll : Bool) (cfg : RagCfg) (batchSize : ℕ)
    (provider : ℕ → ℕ → EmbedOutcome) (fuel : ℕ) (corpus : List VaultFile)
    (st : EngineState) : List Bool × Except String (EngineState × ℕ) :=
  let current := currentDocs cfg corpus
  let st1 := removePhase current st
  let changed := changedDocs reindexAll st.lastIndexedHash current
  let texts := stagedTexts cfg changed
  let misses := missTexts st.cache st.modelId texts
  match embedBatchesFrom provider fuel 0 (batchSplit batchSize misses) with
  | (sigs, Except.error e) => (sigs, Except.error e)
  | (sigs, Except.ok vectors) =>
      let st2 := { st1 with cache := extendCache st.modelId st1.cache (misses.zip vectors) }
      (sigs, Except.ok (finishDocs cfg st2 changed, misses.length))

/-! ## Settings consumed by the engine (§6) -/

/-- Numeric settings arriving as JSON numbers are floored into sizes. -/
def ratToNat (q : ℚ) : ℕ := q.floor.toNat

/-- The indexing configuration extracted from the settings. -/
def ragCfgOf (s : SmartComposerSettings) : RagCfg :=
  { chunkSize := ratToNat s.ragOptions.chunkSize
    includePatterns := s.ragOptions.includePatterns
    excludePatterns := s.ragOptions.excludePatterns }

/-- The query configuration extracted from the settings. -/
def queryCfgOf (s : SmartComposerSettings) : QueryCfg :=
  { limit := ratToNat s.ragOptions.limit
    minSimilarity := s.ragOptions.minSimilarity
    includePatterns := s.ragOptions.includePatterns
    excludePatterns := s.ragOptions.excludePatterns }

/-- Modelled from the spec (§4.1 + §6): `updateIndex` as invoked with
the full settings object — only `ragOptions` and `embeddingModelId`
reach the engine. -/
def engineUpdateIndex (s : SmartComposerSettings) (reindexAll : Bool)
    (embedFn : String → List ℚ) (corpus : List VaultFile) (st : EngineState) :
    EngineState × List String :=
  updateIndex reindexAll (ragCfgOf s) embedFn corpus { st with modelId := s.embeddingModelId }

/-- Modelled from the spec (§6): query-time retrieval as invoked with
the full settings object; retrieval is skipped (`none`) while the
context fits in the `thresholdTokens` budget. -/
def engineQuery (s : SmartComposerSettings) (contextTokens : ℚ) (st : EngineState)
    (qv : List ℚ) : Option (List QueryResult) :=
  if s.ragOptions.thresholdTokens < contextTokens then
    some (query { st with modelId := s.embeddingModelId } qv (queryCfgOf s))
  else none

/-! ## Interrupted runs (§4.1 step 8, §8 crash-safety) -/

/-- Modelled from the spec (§4.1 steps 1-7): the engine state of a
`reindexAll = false` run right after the removal phase and the
embedding phase, before any changed document's rows are rewritten. -/
def preRunState (cfg : RagCfg) (embedFn : String → List ℚ) (corpus : List VaultFile)
    (st : EngineState) : EngineState :=
  let current := currentDocs cfg corpus
  let st1 := removePhase current st
  let changed := changedDocs false st.lastIndexedHash current
  let texts := stagedTexts cfg changed
  let misses := missTexts st.cache st.modelId texts
  { st1 with
    cache := extendCache st.modelId st1.cache (misses.map (fun t => (t, embedFn t))) }

/-- Modelled from the spec (§4.1): the state left by a
`reindexAll = false` run interrupted while processing changed document
number `i` — documents before it fully committed, document `i` with its
old rows deleted and only the first `j` new rows durably stored, its
`lastIndexedHash` entry not yet written, later documents untouched. -/
def crashStateAt (cfg : RagCfg) (embedFn : String → List ℚ) (corpus : List VaultFile)
    (st : EngineState) (i j : ℕ) : EngineState :=
  let changed := changedDocs false st.lastIndexedHash (currentDocs cfg corpus)
  let st2 := preRunState cfg embedFn corpus st
  let stPrev := finishDocs cfg st2 (changed.take i)
  match changed[i]? with
  | none => stPrev
  | some d =>
      { stPrev with
        store := stPrev.store.filter (fun r => r.path != d.path) ++
          (docRows cfg st2.cache st2.modelId d).take j }

/-! ## Helper lemmas about the engine state -/

/-- The rows a store holds for one document path. -/
def rowsFor (store : List Row) (p : String) : List Row :=
  store.filter (fun r => r.path == p)

theorem lookupA_nil (p : String) : lookupA [] p = none := rfl

theorem lookupA_cons (e : String × String) (rest : List (String × String)) (p : String) :
    lookupA (e :: rest) p = if e.1 = p then some e.2 else lookupA rest p := by
  by_cases hp : e.1 = p <;> simp [lookupA, hp]

theorem setA_cons (e : String × String) (rest : List (String × String)) (k v : String) :
    setA (e :: rest) k v = if e.1 = k then (k, v) :: rest else e :: setA rest k v := by
  by_cases he : e.1 = k <;> simp [setA, he]

theorem lookupA_setA_self (m : List (String × String)) (k v : String) :
    lookupA (setA m k v) k = some v := by
  induction m with
  | nil => simp [setA, lookupA]
  | cons e rest ih =>
      rw [setA_cons]
      by_cases he : e.1 = k
      · simp [he, lookupA_cons]
      · simp [he, lookupA_cons, ih]

theorem lookupA_setA_other (m : List (String × String)) (k v p : String) (h : p ≠ k) :
    lookupA (setA m k v) p = lookupA m p := by
  induction m with
  | nil => simp [setA, lookupA, Ne.symm h]
  | cons e rest ih =>
      rw [setA_cons]
      by_cases he : e.1 = k
      · have hep : e.1 ≠ p := by rw [he]; exact Ne.symm h
        simp [he, lookupA_cons, hep, Ne.symm h]
      · simp [he, lookupA_cons, ih]

theorem isChanged_false_iff (m : List (String × String)) (d : VaultFile) :
    isChanged m d = false ↔ lookupA m d.path = some d.hash := by
  unfold isChanged
  cases h : lookupA m d.path with
  | none => simp
  | some v => simp [h, bne_eq_false_iff_eq]

theorem isChanged_true_iff (m : List (String × String)) (d : VaultFile) :
    isChanged m d = true ↔ lookupA m d.path ≠ some d.hash := by
  constructor
  · intro h hc
    have hfalse : isChanged m d = false := (isChanged_false_iff m d).mpr hc
    rw [h] at hfalse
    exact absurd hfalse (by simp)
  · intro h
    cases hb : isChanged m d
    · exact absurd ((isChanged_false_iff m d).mp hb) h
    · rfl

theorem docRows_path (cfg : RagCfg) (cache : List ((String × ℕ) × List ℚ)) (m : String)
    (d : VaultFile) : ∀ r ∈ docRows cfg cache m d, r.path = d.path := by
  intro r hr
  simp only [docRows, List.mem_map] at hr
  obtain ⟨ic, _, rfl⟩ := hr
  rfl

theorem rowsFor_filter_keep (store : List Row) (q : Row → Bool) (p : String)
    (hq : ∀ r ∈ store, r.path = p → q r = true) :
    rowsFor (store.filter q) p = rowsFor store p := by
  unfold rowsFor
  rw [List.filter_filter]
  refine List.filter_congr ?_
  intro r hr
  by_cases hp : r.path = p
  · simp [hp, hq r hr hp]
  · simp [hp]

theorem rowsFor_filter_drop (store : List Row) (q : Row → Bool) (p : String)
    (hq : ∀ r ∈ store, r.path = p → q r = false) :
    rowsFor (store.filter q) p = [] := by
  unfold rowsFor
  rw [List.filter_filter]
  refine List.filter_eq_nil_iff.mpr ?_
  intro r hr
  by_cases hp : r.path = p
  · simp [hp, hq r hr hp]
  · simp [hp]

theorem lookupA_filter_keep (m : List (String × String)) (q : String × String → Bool)
    (p : String) (hq : ∀ e ∈ m, e.1 = p → q e = true) :
    lookupA (m.filter q) p = lookupA m p := by
  induction m with
  | nil => simp
  | cons e rest ih =>
      by_cases he : e.1 = p
      · rw [List.filter_cons_of_pos (hq e (List.mem_cons_self e rest) he)]
        simp [lookupA_cons, he]
      · have ihr := ih (fun x hx => hq x (List.mem_cons_of_mem e hx))
        cases hqe : q e
        · rw [List.filter_cons_of_neg (by simp [hqe])]
          rw [ihr, lookupA_cons]
          simp [he]
        · rw [List.filter_cons_of_pos (by simp [hqe])]
          rw [lookupA_cons, lookupA_cons]
          simp [he, ihr]

theorem lookupA_filter_drop (m : List (String × String)) (q : String × String → Bool)
    (p : String) (hq : ∀ e ∈ m, e.1 = p → q e = false) :
    lookupA (m.filter q) p = none := by
  induction m with
  | nil => rfl
  | cons e rest ih =>
      have ihr := ih (fun x hx => hq x (List.mem_cons_of_mem e hx))
      by_cases he : e.1 = p
      · rw [List.filter_cons_of_neg (by simp [hq e (List.mem_cons_self e rest) he])]
        exact ihr
      · cases hqe : q e
        · rw [List.filter_cons_of_neg (by simp [hqe])]
          exact ihr
        · rw [List.filter_cons_of_pos (by simp [hqe])]
          rw [lookupA_cons]
          simp [he, ihr]

theorem processDoc_modelId (cfg : RagCfg) (st : EngineState) (d : VaultFile) :
    (processDoc cfg st d).modelId = st.modelId := rfl

theorem processDoc_cache (cfg : RagCfg) (st : EngineState) (d : VaultFile) :
    (processDoc cfg st d).cache = st.cache := rfl

theorem rowsFor_processDoc_other (cfg : RagCfg) (st : EngineState) (d : VaultFile)
    (p : String) (hp : p ≠ d.path) :
    rowsFor (processDoc cfg st d).store p = rowsFor st.store p := by
  show rowsFor (st.store.filter (fun r => r.path != d.path) ++
      docRows cfg st.cache st.modelId d) p = rowsFor st.store p
  unfold rowsFor
  rw [List.filter_append]
  have h2 : (docRows cfg st.cache st.modelId d).filter (fun r => r.path == p) = [] := by
    refine List.filter_eq_nil_iff.mpr ?_
    intro r hr
    have := docRows_path cfg st.cache st.modelId d r hr
    simp [this, Ne.symm hp]
  rw [h2, List.append_nil]
  exact rowsFor_filter_keep st.store _ p
    (fun r _ hrp => by simp [hrp]; exact fun hc => hp (hc ▸ rfl))

theorem rowsFor_processDoc_self (cfg : RagCfg) (st : EngineState) (d : VaultFile) :
    rowsFor (processDoc cfg st d).store d.path = docRows cfg st.cache st.modelId d := by
  show rowsFor (st.store.filter (fun r => r.path != d.path) ++
      docRows cfg st.cache st.modelId d) d.path = docRows cfg st.cache st.modelId d
  unfold rowsFor
  rw [List.filter_append]
  have h1 : (st.store.filter (fun r => r.path != d.path)).filter
      (fun r => r.path == d.path) = [] := by
    rw [List.filter_filter]
    refine List.filter_eq_nil_iff.mpr ?_
    intro r _
    by_cases hp : r.path = d.path <;> simp [hp]
  have h2 : (docRows cfg st.cache st.modelId d).filter (fun r => r.path == d.path) =
      docRows cfg st.cache st.modelId d := by
    rw [List.filter_eq_self]
    intro r hr
    simp [docRows_path cfg st.cache st.modelId d r hr]
  rw [h1, h2, List.nil_append]

theorem lookupA_processDoc_self (cfg : RagCfg) (st : EngineState) (d : VaultFile) :
    lookupA (processDoc cfg st d).lastIndexedHash d.path = some d.hash :=
  lookupA_setA_self st.lastIndexedHash d.path d.hash

theorem lookupA_processDoc_other (cfg : RagCfg) (st : EngineState) (d : VaultFile)
    (p : String) (hp : p ≠ d.path) :
    lookupA (processDoc cfg st d).lastIndexedHash p = lookupA st.lastIndexedHash p :=
  lookupA_setA_other st.lastIndexedHash d.path d.hash p hp

theorem finishDocs_nil (cfg : RagCfg) (st : EngineState) : finishDocs cfg st [] = st := rfl

theorem finishDocs_cons (cfg : RagCfg) (st : EngineState) (d : VaultFile)
    (docs : List VaultFile) :
    finishDocs cfg st (d :: docs) = finishDocs cfg (processDoc cfg st d) docs := rfl

theorem finishDocs_modelId (cfg : RagCfg) (docs : List VaultFile) :
    ∀ st : EngineState, (finishDocs cfg st docs).modelId = st.modelId := by
  induction docs with
  | nil => intro st; rfl
  | cons d rest ih => intro st; rw [finishDocs_cons, ih]; rfl

theorem finishDocs_cache (cfg : RagCfg) (docs : List VaultFile) :
    ∀ st : EngineState, (finishDocs cfg st docs).cache = st.cache := by
  induction docs with
  | nil => intro st; rfl
  | cons d rest ih => intro st; rw [finishDocs_cons, ih]; rfl

theorem finishDocs_other (cfg : RagCfg) (docs : List VaultFile) :
    ∀ st : EngineState, ∀ p : String, (∀ d ∈ docs, p ≠ d.path) →
      rowsFor (finishDocs cfg st docs).store p = rowsFor st.store p ∧
        lookupA (finishDocs cfg st docs).lastIndexedHash p = lookupA st.lastIndexedHash p := by
  induction docs with
  | nil => intro st p _; exact ⟨rfl, rfl⟩
  | cons d rest ih =>
      intro st p hp
      rw [finishDocs_cons]
      have hpd : p ≠ d.path := hp d (List.mem_cons_self d rest)
      have hrest := ih (processDoc cfg st d) p (fun x hx => hp x (List.mem_cons_of_mem d hx))
      exact ⟨hrest.1.trans (rowsFor_processDoc_other cfg st d p hpd),
        hrest.2.trans (lookupA_processDoc_other cfg st d p hpd)⟩

theorem finishDocs_mem (cfg : RagCfg) (docs : List VaultFile) :
    ∀ st : EngineState, ∀ d ∈ docs, (docs.map (fun x => x.path)).Nodup →
      rowsFor (finishDocs cfg st docs).store d.path = docRows cfg st.cache st.modelId d ∧
        lookupA (finishDocs cfg st docs).lastIndexedHash d.path = some d.hash := by
  induction docs with
  | nil => intro st d hd; exact absurd hd (List.not_mem_nil d)
  | cons a rest ih =>
      intro st d hd hN
      rw [List.map_cons, List.nodup_cons] at hN
      rw [finishDocs_cons]
      rcases List.mem_cons.mp hd with rfl | hdr
      · have hnp : ∀ x ∈ rest, d.path ≠ x.path := by
          intro x hx hc
          exact hN.1 (hc ▸ List.mem_map_of_mem (fun y => y.path) hx)
        have hpres := finishDocs_other cfg rest (processDoc cfg st d) d.path hnp
        refine ⟨hpres.1.trans (rowsFor_processDoc_self cfg st d), ?_⟩
        rw [hpres.2]
        exact lookupA_processDoc_self cfg st d
      · have hrec := ih (processDoc cfg st a) d hdr hN.2
        rw [processDoc_cache, processDoc_modelId] at hrec
        exact hrec

theorem removePhase_modelId (current : List VaultFile) (st : EngineState) :
    (removePhase current st).modelId = st.modelId := rfl

theorem removePhase_cache (current : List VaultFile) (st : EngineState) :
    (removePhase current st).cache = st.cache := rfl

theorem lookupA_exists_of_ne_none (m : List (String × String)) (p : String)
    (h : lookupA m p ≠ none) : ∃ e ∈ m, e.1 = p := by
  unfold lookupA at h
  cases hf : m.find? (fun e => e.1 == p) with
  | none => rw [hf] at h; simp at h
  | some e =>
      refine ⟨e, List.mem_of_find?_eq_some hf, ?_⟩
      have := List.find?_some hf
      simpa using this

theorem removePhase_kept (current : List VaultFile) (st : EngineState) (p : String)
    (hcur : ∃ d ∈ current, d.path = p) :
    lookupA (removePhase current st).lastIndexedHash p = lookupA st.lastIndexedHash p ∧
      rowsFor (removePhase current st).store p = rowsFor st.store p := by
  obtain ⟨d0, hd0, rfl⟩ := hcur
  have hkeep : (current.any (fun d => d.path == d0.path)) = true :=
    List.any_eq_true.mpr ⟨d0, hd0, by simp⟩
  dsimp only [removePhase]
  constructor
  · exact lookupA_filter_keep _ _ _ (fun e _ he => by rw [he]; exact hkeep)
  · refine rowsFor_filter_keep _ _ _ ?_
    intro r _ hrp
    rw [hrp]
    have hnot : d0.path ∉ (st.lastIndexedHash.filter
        (fun e => !(current.any (fun d => d.path == e.1)))).map (fun e => e.1) := by
      intro hmem
      rw [List.mem_map] at hmem
      obtain ⟨e, hef, hep⟩ := hmem
      rw [List.mem_filter] at hef
      rw [hep] at hef
      rw [hkeep] at hef
      simp at hef
    simp [hnot]

theorem removePhase_removed (current : List VaultFile) (st : EngineState) (p : String)
    (hnc : ∀ d ∈ current, d.path ≠ p) (hin : lookupA st.lastIndexedHash p ≠ none) :
    lookupA (removePhase current st).lastIndexedHash p = none ∧
      rowsFor (removePhase current st).store p = [] := by
  have hkeep : (current.any (fun d => d.path == p)) = false := by
    rw [List.any_eq_false]
    intro d hd
    simp [hnc d hd]
  dsimp only [removePhase]
  constructor
  · exact lookupA_filter_drop _ _ _ (fun e _ he => by rw [he, hkeep])
  · refine rowsFor_filter_drop _ _ _ ?_
    intro r _ hrp
    obtain ⟨e, hem, hep⟩ := lookupA_exists_of_ne_none st.lastIndexedHash p hin
    have hmem : p ∈ (st.lastIndexedHash.filter
        (fun x => !(current.any (fun d => d.path == x.1)))).map (fun x => x.1) := by
      rw [List.mem_map]
      exact ⟨e, List.mem_filter.mpr ⟨hem, by rw [hep, hkeep]; rfl⟩, hep⟩
    rw [hrp]
    simp [hmem]

theorem lookupA_ne_none_iff (m : List (String × String)) (p : String) :
    lookupA m p ≠ none ↔ ∃ e ∈ m, e.1 = p := by
  constructor
  · exact lookupA_exists_of_ne_none m p
  · rintro ⟨e, hem, hep⟩ hnone
    unfold lookupA at hnone
    cases hf : m.find? (fun e => e.1 == p) with
    | some x => rw [hf] at hnone; simp at hnone
    | none =>
        have := List.find?_eq_none.mp hf e hem
        simp [hep] at this

theorem changedDocs_false (m : List (String × String)) (current : List VaultFile) :
    changedDocs false m current = current.filter (isChanged m) := rfl

theorem updateIndex_unfold (cfg : RagCfg) (embedFn : String → List ℚ)
    (corpus : List VaultFile) (st : EngineState) (reindexAll : Bool) :
    updateIndex reindexAll cfg embedFn corpus st =
      (finishDocs cfg
        { removePhase (currentDocs cfg corpus) st with
          cache := extendCache st.modelId (removePhase (currentDocs cfg corpus) st).cache
            ((missTexts st.cache st.modelId
                (stagedTexts cfg
                  (changedDocs reindexAll st.lastIndexedHash (currentDocs cfg corpus)))).map
              (fun t => (t, embedFn t))) }
        (changedDocs reindexAll st.lastIndexedHash (currentDocs cfg corpus)),
      missTexts st.cache st.modelId
        (stagedTexts cfg
          (changedDocs reindexAll st.lastIndexedHash (currentDocs cfg corpus)))) := rfl

theorem updateIndex_run_spec (cfg : RagCfg) (embedFn : String → List ℚ)
    (corpus : List VaultFile) (st : EngineState)
    (hN : ((currentDocs cfg corpus).map (fun d => d.path)).Nodup) :
    (∀ d ∈ currentDocs cfg corpus, isChanged st.lastIndexedHash d = false →
        rowsFor (updateIndex false cfg embedFn corpus st).1.store d.path =
            rowsFor st.store d.path ∧
          lookupA (updateIndex false cfg embedFn corpus st).1.lastIndexedHash d.path =
            some d.hash) ∧
    (∀ d ∈ currentDocs cfg corpus, isChanged st.lastIndexedHash d = true →
        rowsFor (updateIndex false cfg embedFn corpus st).1.store d.path =
            docRows cfg (updateIndex false cfg embedFn corpus st).1.cache st.modelId d ∧
          lookupA (updateIndex false cfg embedFn corpus st).1.lastIndexedHash d.path =
            some d.hash) ∧
    (∀ p : String, lookupA st.lastIndexedHash p ≠ none →
        (∀ d ∈ currentDocs cfg corpus, d.path ≠ p) →
        lookupA (updateIndex false cfg embedFn corpus st).1.lastIndexedHash p = none ∧
          rowsFor (updateIndex false cfg embedFn corpus st).1.store p = []) ∧
    (∀ p : String, lookupA (updateIndex false cfg embedFn corpus st).1.lastIndexedHash p ≠ none →
        ∃ d ∈ currentDocs cfg corpus, d.path = p) := by
  have hinj := List.inj_on_of_nodup_map hN
  set current := currentDocs cfg corpus with hcur
  set changed := changedDocs false st.lastIndexedHash current with hch
  have hchdef : changed = current.filter (isChanged st.lastIndexedHash) := rfl
  set st1 := removePhase current st with hst1
  set st2 : EngineState :=
    { st1 with
      cache := extendCache st.modelId st1.cache
        ((missTexts st.cache st.modelId (stagedTexts cfg changed)).map
          (fun t => (t, embedFn t))) } with hst2
  have hres : (updateIndex false cfg embedFn corpus st).1 = finishDocs cfg st2 changed := rfl
  have hsub : ∀ d ∈ changed, d ∈ current := by
    intro d hd
    rw [hchdef] at hd
    exact List.mem_of_mem_filter hd
  have hchN : (changed.map (fun d => d.path)).Nodup := by
    refine List.Nodup.sublist ?_ hN
    rw [hchdef]
    exact List.Sublist.map _ (List.filter_sublist current)
  have hst2store : st2.store = st1.store := rfl
  have hst2hash : st2.lastIndexedHash = st1.lastIndexedHash := rfl
  have hst2model : st2.modelId = st.modelId := removePhase_modelId current st
  refine ⟨?_, ?_, ?_, ?_⟩
  · -- unchanged documents are untouched and stay committed
    intro d hd hchg
    have hdnil : ∀ x ∈ changed, d.path ≠ x.path := by
      intro x hx hc
      have hxc := hsub x hx
      have : d = x := hinj hd hxc hc
      rw [hchdef, List.mem_filter] at hx
      rw [← this] at hx
      rw [hchg] at hx
      simp at hx
    have hpres := finishDocs_other cfg changed st2 d.path hdnil
    have hkept := removePhase_kept current st d.path ⟨d, hd, rfl⟩
    rw [hres]
    constructor
    · rw [hpres.1, hst2store, hkept.2]
    · rw [hpres.2, hst2hash, hkept.1]
      exact (isChanged_false_iff st.lastIndexedHash d).mp hchg
  · -- changed documents end with exactly their fresh row set, committed
    intro d hd hchg
    have hdch : d ∈ changed := by
      rw [hchdef, List.mem_filter]
      exact ⟨hd, hchg⟩
    have hmem := finishDocs_mem cfg changed st2 d hdch hchN
    rw [hres]
    have hcache : (finishDocs cfg st2 changed).cache = st2.cache :=
      finishDocs_cache cfg changed st2
    constructor
    · rw [hmem.1, hcache, hst2model]
    · exact hmem.2
  · -- removed documents lose their rows and their hash entry
    intro p hin hnc
    have hrm := removePhase_removed current st p (fun d hd => hnc d hd) hin
    have hpnil : ∀ x ∈ changed, p ≠ x.path := by
      intro x hx hc
      exact hnc x (hsub x hx) hc.symm
    have hpres := finishDocs_other cfg changed st2 p hpnil
    rw [hres]
    constructor
    · rw [hpres.2, hst2hash, hrm.1]
    · rw [hpres.1, hst2store, hrm.2]
  · -- every surviving hash key belongs to a current document
    intro p hne
    by_contra hno
    push_neg at hno
    have hpnil : ∀ x ∈ changed, p ≠ x.path := by
      intro x hx hc
      exact hno x (hsub x hx) hc.symm
    have hpres := finishDocs_other cfg changed st2 p hpnil
    rw [hres, hpres.2, hst2hash] at hne
    have : lookupA st1.lastIndexedHash p = none := by
      rw [hst1]
      dsimp only [removePhase]
      refine lookupA_filter_drop _ _ _ ?_
      intro e _ hep
      rw [hep]
      rw [List.any_eq_false]
      intro d hd
      simp [hno d hd]
    exact hne this

theorem removePhase_id (current : List VaultFile) (st : EngineState)
    (hkeys : ∀ e ∈ st.lastIndexedHash, ∃ d ∈ current, d.path = e.1) :
    removePhase current st = st := by
  have hkeep : ∀ e ∈ st.lastIndexedHash,
      (current.any (fun d => d.path == e.1)) = true := by
    intro e he
    obtain ⟨d, hd, hdp⟩ := hkeys e he
    exact List.any_eq_true.mpr ⟨d, hd, by simp [hdp]⟩
  have h1 : st.lastIndexedHash.filter (fun e => current.any (fun d => d.path == e.1)) =
      st.lastIndexedHash := List.filter_eq_self.mpr hkeep
  have h0 : st.lastIndexedHash.filter (fun e => !(current.any (fun d => d.path == e.1))) =
      [] := List.filter_eq_nil_iff.mpr (fun e he => by simp [hkeep e he])
  dsimp only [removePhase]
  rw [h1, h0]
  have h2 : st.store.filter
      (fun r => !(List.contains (List.map (fun e => e.1)
        ([] : List (String × String))) r.path)) = st.store :=
    List.filter_eq_self.mpr (fun r _ => rfl)
  rw [h2]

theorem preRunState_modelId (cfg : RagCfg) (embedFn : String → List ℚ)
    (corpus : List VaultFile) (st : EngineState) :
    (preRunState cfg embedFn corpus st).modelId = st.modelId := rfl

theorem preRunState_hash (cfg : RagCfg) (embedFn : String → List ℚ)
    (corpus : List VaultFile) (st : EngineState) :
    (preRunState cfg embedFn corpus st).lastIndexedHash =
      (removePhase (currentDocs cfg corpus) st).lastIndexedHash := rfl

theorem preRunState_store (cfg : RagCfg) (embedFn : String → List ℚ)
    (corpus : List VaultFile) (st : EngineState) :
    (preRunState cfg embedFn corpus st).store =
      (removePhase (currentDocs cfg corpus) st).store := rfl

theorem crashStateAt_eq_some (cfg : RagCfg) (embedFn : String → List ℚ)
    (corpus : List VaultFile) (st : EngineState) (i j : ℕ) (D : VaultFile)
    (hD : (changedDocs false st.lastIndexedHash (currentDocs cfg corpus))[i]? = some D) :
    crashStateAt cfg embedFn corpus st i j =
      { finishDocs cfg (preRunState cfg embedFn corpus st)
          ((changedDocs false st.lastIndexedHash (currentDocs cfg corpus)).take i) with
        store := (finishDocs cfg (preRunState cfg embedFn corpus st)
            ((changedDocs false st.lastIndexedHash (currentDocs cfg corpus)).take i)).store.filter
              (fun r => r.path != D.path) ++
          (docRows cfg (preRunState cfg embedFn corpus st).cache
            (preRunState cfg embedFn corpus st).modelId D).take j } := by
  dsimp only [crashStateAt]
  rw [hD]

theorem nodup_getElem_not_mem_take {α : Type _} (l : List α) (hN : l.Nodup) (i : ℕ)
    (a : α) (ha : l[i]? = some a) : a ∉ l.take i := by
  intro hmem
  have hsplit := List.take_append_drop i l
  rw [← hsplit, List.nodup_append] at hN
  have hdrop : a ∈ l.drop i := by
    have h0 : (l.drop i)[0]? = some a := by
      rw [List.getElem?_drop]
      simpa using ha
    exact List.getElem?_mem h0
  exact hN.2.2 hmem hdrop

theorem dot_nil_left (v : List ℚ) : dot [] v = 0 := rfl

theorem dot_nil_right (u : List ℚ) : dot u [] = 0 := by
  cases u <;> rfl

theorem dot_cons (a b : ℚ) (u v : List ℚ) :
    dot (a :: u) (b :: v) = a * b + dot u v := by
  simp [dot]

theorem normSq_cons (a : ℚ) (v : List ℚ) : normSq (a :: v) = a * a + normSq v := by
  simp [normSq, dot_cons]

theorem normSq_nonneg (v : List ℚ) : 0 ≤ normSq v := by
  induction v with
  | nil => exact le_refl 0
  | cons a v ih =>
      rw [normSq_cons]
      exact add_nonneg (mul_self_nonneg a) ih

/-- Cauchy–Schwarz for the list dot product. -/
theorem dot_sq_le (u : List ℚ) : ∀ v : List ℚ, (dot u v) ^ 2 ≤ normSq u * normSq v := by
  induction u with
  | nil =>
      intro v
      simp [dot_nil_left, normSq]
  | cons a u ih =>
      intro v
      cases v with
      | nil => simp [dot_nil_right, normSq]
      | cons b v =>
          have hX : 0 ≤ normSq u := normSq_nonneg u
          have hY : 0 ≤ normSq v := normSq_nonneg v
          have hD := ih v
          rw [dot_cons, normSq_cons, normSq_cons]
          rcases eq_or_lt_of_le hY with hY0 | hYpos
          · have hsq : (dot u v) ^ 2 = 0 := by nlinarith [sq_nonneg (dot u v)]
            have hD0 : dot u v = 0 := sq_eq_zero_iff.mp hsq
            rw [hD0, ← hY0]
            nlinarith [sq_nonneg (a * b), mul_self_nonneg b, hX]
          · have h1 : 0 ≤ (a * normSq v - b * dot u v) ^ 2 := sq_nonneg _
            have h2 : 0 ≤ b ^ 2 * (normSq u * normSq v - (dot u v) ^ 2) :=
              mul_nonneg (sq_nonneg b) (sub_nonneg.mpr hD)
            have h3 : 0 ≤ normSq v * (normSq u * normSq v - (dot u v) ^ 2) :=
              mul_nonneg hY (sub_nonneg.mpr hD)
            nlinarith [h1, h2, h3, hYpos]

/-- On unit vectors the dot product — the cosine similarity — lies in
`[-1, 1]`. -/
theorem dot_unit_bounds (u v : List ℚ) (hu : normSq u = 1) (hv : normSq v = 1) :
    -1 ≤ dot u v ∧ dot u v ≤ 1 := by
  have h := dot_sq_le u v
  rw [hu, hv] at h
  constructor
  · nlinarith [sq_nonneg (dot u v + 1)]
  · nlinarith [sq_nonneg (dot u v - 1)]

theorem retryBatch_scenario (provider : ℕ → EmbedOutcome) (vs : List (List ℚ)) :
    ∀ (k fuel attempt : ℕ), k < fuel →
      (∀ a, a < k → provider (attempt + a) = EmbedOutcome.rateLimited) →
      provider (attempt + k) = EmbedOutcome.ok vs →
      retryBatch provider fuel attempt =
        (List.replicate k true ++ [false], Except.ok vs) := by
  intro k
  induction k with
  | zero =>
      intro fuel attempt hk hrl hok
      cases fuel with
      | zero => omega
      | succ f =>
          have h0 : provider attempt = EmbedOutcome.ok vs := by simpa using hok
          simp [retryBatch, h0]
  | succ k ih =>
      intro fuel attempt hk hrl hok
      cases fuel with
      | zero => omega
      | succ f =>
          have h0 : provider attempt = EmbedOutcome.rateLimited := by
            simpa using hrl 0 (Nat.succ_pos k)
          have hih := ih f (attempt + 1) (by omega)
            (fun a ha => by
              rw [show attempt + 1 + a = attempt + (a + 1) by omega]
              exact hrl (a + 1) (by omega))
            (by
              rw [show attempt + 1 + k = attempt + (k + 1) by omega]
              exact hok)
          simp [retryBatch, h0, hih, List.replicate_succ]

theorem embedBatchesFrom_scenario (provider : ℕ → ℕ → EmbedOutcome) (fuel : ℕ)
    (k : ℕ → ℕ) (vecs : ℕ → List (List ℚ)) :
    ∀ (batches : List (List String)) (i0 : ℕ),
      (∀ i, i < batches.length → k (i0 + i) < fuel ∧
        (∀ a, a < k (i0 + i) → provider (i0 + i) a = EmbedOutcome.rateLimited) ∧
        provider (i0 + i) (k (i0 + i)) = EmbedOutcome.ok (vecs (i0 + i))) →
      embedBatchesFrom provider fuel i0 batches =
        (((List.range batches.length).map
            (fun i => List.replicate (k (i0 + i)) true ++ [false])).flatten,
         Except.ok (((List.range batches.length).map (fun i => vecs (i0 + i))).flatten)) := by
  intro batches
  induction batches with
  | nil =>
      intro i0 _
      simp [embedBatchesFrom]
  | cons b rest ih =>
      intro i0 hscen
      have h0 := hscen 0 (by simp)
      rw [Nat.add_zero] at h0
      have hret := retryBatch_scenario (provider i0) (vecs i0) (k i0) fuel 0 h0.1
        (fun a ha => by simpa using h0.2.1 a ha) (by simpa using h0.2.2)
      have hih := ih (i0 + 1) (fun i hi => by
        have hs := hscen (i + 1) (by simpa using Nat.succ_lt_succ hi)
        rw [show i0 + (i + 1) = i0 + 1 + i by omega] at hs
        exact hs)
      simp only [embedBatchesFrom, hret, hih]
      have hrange : ∀ {α : Type} (f : ℕ → α) (n : ℕ),
          (List.range (n + 1)).map (fun i => f (i0 + i)) =
            f i0 :: (List.range n).map (fun i => f (i0 + 1 + i)) := by
        intro α f n
        rw [List.range_succ_eq_map]
        simp only [List.map_cons, Nat.add_zero, List.map_map]
        congr 1
        refine List.map_congr_left ?_
        intro i _
        simp only [Function.comp]
        rw [show i0 + (i + 1) = i0 + 1 + i by omega]
      rw [List.length_cons,
        hrange (fun i => List.replicate (k i) true ++ [false]) rest.length,
        hrange (fun i => vecs i) rest.length]
      simp [List.flatten_cons]

/-! ## Claim theorems -/

/-- **C1** (amended): `query` returns only chunk rows of the active
model with matching embedding dimension whose path passes the
include/exclude glob filters and whose cosine similarity to the query
vector is at least `minSimilarity`; the results are ordered by
descending similarity with ties broken by shorter chunk length and then
lexicographic path order; at most `limit` results are returned; and —
for unit-normalized vectors — every reported similarity lies in
`[-1, 1]`, hence in `[0, 1]` whenever `minSimilarity ≥ 0`. -/
theorem query_spec (st : EngineState) (qv : List ℚ) (cfg : QueryCfg)
    (hq : normSq qv = 1) (hrows : ∀ r ∈ st.store, normSq r.vector = 1) :
    (∀ x ∈ query st qv cfg,
        x.row ∈ st.store ∧
        x.row.modelId = st.modelId ∧
        x.row.vector.length = qv.length ∧
        passesFilters cfg.includePatterns cfg.excludePatterns x.row.path = true ∧
        cfg.minSimilarity ≤ x.similarity ∧
        x.similarity = dot qv x.row.vector ∧
        -1 ≤ x.similarity ∧ x.similarity ≤ 1 ∧
        (0 ≤ cfg.minSimilarity → 0 ≤ x.similarity ∧ x.similarity ≤ 1)) ∧
    (query st qv cfg).Sorted qrLE ∧
    (query st qv cfg).length ≤ cfg.limit := by
  refine ⟨?_, ?_, ?_⟩
  · intro x hx
    have hx1 : x ∈ List.insertionSort qrLE
        ((candidateRows st.store st.modelId qv cfg).map
          (fun r => ({ row := r, similarity := dot qv r.vector } : QueryResult))) :=
      List.take_subset _ _ hx
    have hx2 : x ∈ (candidateRows st.store st.modelId qv cfg).map
        (fun r => ({ row := r, similarity := dot qv r.vector } : QueryResult)) :=
      (List.Perm.mem_iff (List.perm_insertionSort qrLE _)).mp hx1
    obtain ⟨r, hr, rfl⟩ := List.mem_map.mp hx2
    simp only [candidateRows, List.mem_filter, Bool.and_eq_true, beq_iff_eq,
      decide_eq_true_eq] at hr
    obtain ⟨hmem, ⟨⟨hmodel, hlen⟩, hpass⟩, hmin⟩ := hr
    have hbounds := dot_unit_bounds qv r.vector hq (hrows r hmem)
    refine ⟨hmem, hmodel, hlen, hpass, hmin, rfl, hbounds.1, hbounds.2, ?_⟩
    intro h0
    exact ⟨le_trans h0 hmin, hbounds.2⟩
  · exact List.Pairwise.sublist (List.take_sublist _ _)
      (List.sorted_insertionSort qrLE _)
  · exact List.length_take_le _ _

/-- Counterexample for C1 as stated: with a negative `minSimilarity`
a result with negative cosine similarity is returned, so the reported
similarity does not lie in `[0, 1]`. -/
theorem query_similarity_counterexample :
    ((query
        { modelId := "m", lastIndexedHash := [],
          store := [{ path := "a.md", idx := 0, start := 0, stop := 1, text := "x",
                      chash := 0, vector := [-1], modelId := "m" }], cache := [] }
        [1]
        { limit := 1, minSimilarity := -1, includePatterns := [], excludePatterns := [] }).map
      (fun x => x.similarity) = [-1]) ∧
    ¬(∀ x ∈ query
        { modelId := "m", lastIndexedHash := [],
          store := [{ path := "a.md", idx := 0, start := 0, stop := 1, text := "x",
                      chash := 0, vector := [-1], modelId := "m" }], cache := [] }
        [1]
        { limit := 1, minSimilarity := -1, includePatterns := [], excludePatterns := [] },
      0 ≤ x.similarity ∧ x.similarity ≤ 1) := by
  have hq : query
      { modelId := "m", lastIndexedHash := [],
        store := [{ path := "a.md", idx := 0, start := 0, stop := 1, text := "x",
                    chash := 0, vector := [-1], modelId := "m" }], cache := [] }
      [1]
      { limit := 1, minSimilarity := -1, includePatterns := [], excludePatterns := [] } =
      [{ row := { path := "a.md", idx := 0, start := 0, stop := 1, text := "x",
                   chash := 0, vector := [-1], modelId := "m" }, similarity := -1 }] := by
    norm_num [query, candidateRows, passesFilters, dot_cons, dot_nil_left]
  rw [hq]
  constructor
  · rfl
  · intro h
    have hx := h { row := { path := "a.md", idx := 0, start := 0, stop := 1, text := "x",
                            chash := 0, vector := [-1], modelId := "m" }, similarity := -1 }
      (List.mem_singleton.mpr rfl)
    have h0 := hx.1
    norm_num at h0

/-- Witness for the amended C1 on a two-row store with unit vectors. -/
theorem query_spec_witness :
    normSq [1, 0] = 1 ∧
    (∀ r ∈ [{ path := "a.md", idx := 0, start := 0, stop := 1, text := "x",
              chash := 0, vector := [1, 0], modelId := "m" },
            { path := "b.md", idx := 0, start := 0, stop := 2, text := "yy",
              chash := 1, vector := [0, 1], modelId := "m" }], normSq (Row.vector r) = 1) ∧
    (query
        { modelId := "m", lastIndexedHash := [],
          store := [{ path := "a.md", idx := 0, start := 0, stop := 1, text := "x",
                      chash := 0, vector := [1, 0], modelId := "m" },
                    { path := "b.md", idx := 0, start := 0, stop := 2, text := "yy",
                      chash := 1, vector := [0, 1], modelId := "m" }], cache := [] }
        [1, 0]
        { limit := 5, minSimilarity := 0, includePatterns := [],
          excludePatterns := [] }).length ≤ 5 := by
  refine ⟨by norm_num [normSq, dot_cons, dot_nil_left],
    by norm_num [List.forall_mem_cons, normSq, dot_cons, dot_nil_left], ?_⟩
  exact (query_spec
    { modelId := "m", lastIndexedHash := [],
      store := [{ path := "a.md", idx := 0, start := 0, stop := 1, text := "x",
                  chash := 0, vector := [1, 0], modelId := "m" },
                { path := "b.md", idx := 0, start := 0, stop := 2, text := "yy",
                  chash := 1, vector := [0, 1], modelId := "m" }], cache := [] }
    [1, 0]
    { limit := 5, minSimilarity := 0, includePatterns := [], excludePatterns := [] }
    (by norm_num [normSq, dot_cons, dot_nil_left])
    (by norm_num [List.forall_mem_cons, normSq, dot_cons, dot_nil_left])).2.2

/-- **C2**: with `reindexAll = false`, `updateIndex` re-chunks and
re-embeds exactly the documents that are absent from `lastIndexedHash`
or whose hash differs (their rows end up being exactly the fresh chunk
rows and their hash entry is committed), deletes every row of paths
present in `lastIndexedHash` but absent from the listing and drops
those paths from `lastIndexedHash`, and leaves the rows of every
document with an unchanged hash untouched. -/
theorem updateIndex_diff_correctness (cfg : RagCfg) (embedFn : String → List ℚ)
    (corpus : List VaultFile) (st : EngineState)
    (hN : ((currentDocs cfg corpus).map (fun d => d.path)).Nodup) :
    (∀ d ∈ currentDocs cfg corpus, lookupA st.lastIndexedHash d.path = some d.hash →
        rowsFor (updateIndex false cfg embedFn corpus st).1.store d.path =
            rowsFor st.store d.path ∧
          lookupA (updateIndex false cfg embedFn corpus st).1.lastIndexedHash d.path =
            some d.hash) ∧
    (∀ d ∈ currentDocs cfg corpus, lookupA st.lastIndexedHash d.path ≠ some d.hash →
        rowsFor (updateIndex false cfg embedFn corpus st).1.store d.path =
            docRows cfg (updateIndex false cfg embedFn corpus st).1.cache st.modelId d ∧
          lookupA (updateIndex false cfg embedFn corpus st).1.lastIndexedHash d.path =
            some d.hash) ∧
    (∀ p : String, lookupA st.lastIndexedHash p ≠ none →
        (∀ d ∈ currentDocs cfg corpus, d.path ≠ p) →
        lookupA (updateIndex false cfg embedFn corpus st).1.lastIndexedHash p = none ∧
          rowsFor (updateIndex false cfg embedFn corpus st).1.store p = []) := by
  obtain ⟨h1, h2, h3, _⟩ := updateIndex_run_spec cfg embedFn corpus st hN
  refine ⟨?_, ?_, h3⟩
  · intro d hd hlook
    exact h1 d hd ((isChanged_false_iff st.lastIndexedHash d).mpr hlook)
  · intro d hd hlook
    exact h2 d hd ((isChanged_true_iff st.lastIndexedHash d).mpr hlook)

/-- Witness for C2 at a concrete corpus: `A` unchanged, `B` removed,
`C` new. -/
theorem updateIndex_diff_correctness_witness :
    ((currentDocs { chunkSize := 10, includePatterns := [], excludePatterns := [] }
        [{ path := "A.md", hash := "h1", content := "alpha" },
         { path := "C.md", hash := "h3", content := "gamma" }]).map
      (fun d => d.path)).Nodup ∧
    (∀ d ∈ currentDocs { chunkSize := 10, includePatterns := [], excludePatterns := [] }
        [{ path := "A.md", hash := "h1", content := "alpha" },
         { path := "C.md", hash := "h3", content := "gamma" }],
      lookupA [("A.md", "h1"), ("B.md", "h2")] d.path = some d.hash →
        rowsFor (updateIndex false
            { chunkSize := 10, includePatterns := [], excludePatterns := [] }
            (fun _ => [1])
            [{ path := "A.md", hash := "h1", content := "alpha" },
             { path := "C.md", hash := "h3", content := "gamma" }]
            { modelId := "m", lastIndexedHash := [("A.md", "h1"), ("B.md", "h2")],
              store := [], cache := [] }).1.store d.path =
          rowsFor ([] : List Row) d.path ∧
        lookupA (updateIndex false
            { chunkSize := 10, includePatterns := [], excludePatterns := [] }
            (fun _ => [1])
            [{ path := "A.md", hash := "h1", content := "alpha" },
             { path := "C.md", hash := "h3", content := "gamma" }]
            { modelId := "m", lastIndexedHash := [("A.md", "h1"), ("B.md", "h2")],
              store := [], cache := [] }).1.lastIndexedHash d.path = some d.hash) := by
  refine ⟨by decide, ?_⟩
  have h := (updateIndex_diff_correctness
      { chunkSize := 10, includePatterns := [], excludePatterns := [] }
      (fun _ => [1])
      [{ path := "A.md", hash := "h1", content := "alpha" },
       { path := "C.md", hash := "h3", content := "gamma" }]
      { modelId := "m", lastIndexedHash := [("A.md", "h1"), ("B.md", "h2")],
        store := [], cache := [] }
      (by decide)).1
  exact h

/-- **C3**: commit-after-store and crash-safety.  If a
`reindexAll = false` run is interrupted while processing changed
document `D` (old rows deleted, only a prefix of the new rows stored,
`IndexState` not yet committed for `D`), then at the crash state `D`'s
`lastIndexedHash` entry is not the new hash, every changed document
committed before `D` has its complete row set stored, the next
`updateIndex` run treats `D` as changed again, and that run ends with
exactly one complete set of rows for `D` and its hash committed. -/
theorem updateIndex_crash_safety (cfg : RagCfg) (embedFn : String → List ℚ)
    (corpus : List VaultFile) (st : EngineState) (i j : ℕ) (D : VaultFile)
    (hN : ((currentDocs cfg corpus).map (fun d => d.path)).Nodup)
    (hD : (changedDocs false st.lastIndexedHash (currentDocs cfg corpus))[i]? = some D) :
    lookupA (crashStateAt cfg embedFn corpus st i j).lastIndexedHash D.path ≠
        some D.hash ∧
    (∀ d ∈ (changedDocs false st.lastIndexedHash (currentDocs cfg corpus)).take i,
        rowsFor (crashStateAt cfg embedFn corpus st i j).store d.path =
            docRows cfg (crashStateAt cfg embedFn corpus st i j).cache st.modelId d ∧
          lookupA (crashStateAt cfg embedFn corpus st i j).lastIndexedHash d.path =
            some d.hash) ∧
    D ∈ changedDocs false (crashStateAt cfg embedFn corpus st i j).lastIndexedHash
        (currentDocs cfg corpus) ∧
    (rowsFor (updateIndex false cfg embedFn corpus
          (crashStateAt cfg embedFn corpus st i j)).1.store D.path =
        docRows cfg (updateIndex false cfg embedFn corpus
            (crashStateAt cfg embedFn corpus st i j)).1.cache st.modelId D ∧
      lookupA (updateIndex false cfg embedFn corpus
          (crashStateAt cfg embedFn corpus st i j)).1.lastIndexedHash D.path =
        some D.hash) := by
  have hinj := List.inj_on_of_nodup_map hN
  have hchdef : changedDocs false st.lastIndexedHash (currentDocs cfg corpus) =
      (currentDocs cfg corpus).filter (isChanged st.lastIndexedHash) := rfl
  have hCeq := crashStateAt_eq_some cfg embedFn corpus st i j D hD
  have hsub : ∀ d ∈ changedDocs false st.lastIndexedHash (currentDocs cfg corpus),
      d ∈ currentDocs cfg corpus := by
    intro d hd
    rw [hchdef] at hd
    exact List.mem_of_mem_filter hd
  have hchN : ((changedDocs false st.lastIndexedHash (currentDocs cfg corpus)).map
      (fun d => d.path)).Nodup := by
    refine List.Nodup.sublist ?_ hN
    rw [hchdef]
    exact List.Sublist.map _ (List.filter_sublist _)
  have hDmem : D ∈ changedDocs false st.lastIndexedHash (currentDocs cfg corpus) :=
    List.getElem?_mem hD
  have hDcur : D ∈ currentDocs cfg corpus := hsub D hDmem
  have hDchanged : isChanged st.lastIndexedHash D = true := by
    rw [hchdef] at hDmem
    exact (List.mem_filter.mp hDmem).2
  have hDnotTake : ∀ x ∈ (changedDocs false st.lastIndexedHash
      (currentDocs cfg corpus)).take i, D.path ≠ x.path := by
    intro x hx hc
    have hmap : ((changedDocs false st.lastIndexedHash (currentDocs cfg corpus)).map
        (fun d => d.path))[i]? = some D.path := by
      rw [List.getElem?_map, hD]
      rfl
    refine nodup_getElem_not_mem_take _ hchN i D.path hmap ?_
    rw [← List.map_take]
    exact hc ▸ List.mem_map_of_mem (fun d => d.path) hx
  have hCst : (crashStateAt cfg embedFn corpus st i j).store =
      (finishDocs cfg (preRunState cfg embedFn corpus st)
          ((changedDocs false st.lastIndexedHash (currentDocs cfg corpus)).take i)).store.filter
        (fun r => r.path != D.path) ++
      (docRows cfg (preRunState cfg embedFn corpus st).cache
        (preRunState cfg embedFn corpus st).modelId D).take j := by
    rw [hCeq]
  have hChash : (crashStateAt cfg embedFn corpus st i j).lastIndexedHash =
      (finishDocs cfg (preRunState cfg embedFn corpus st)
        ((changedDocs false st.lastIndexedHash
          (currentDocs cfg corpus)).take i)).lastIndexedHash := by
    rw [hCeq]
  have hCcache : (crashStateAt cfg embedFn corpus st i j).cache =
      (preRunState cfg embedFn corpus st).cache := by
    rw [hCeq]
    exact finishDocs_cache cfg _ (preRunState cfg embedFn corpus st)
  have hCmodel : (crashStateAt cfg embedFn corpus st i j).modelId = st.modelId := by
    rw [hCeq]
    show (finishDocs cfg (preRunState cfg embedFn corpus st)
      ((changedDocs false st.lastIndexedHash (currentDocs cfg corpus)).take i)).modelId =
      st.modelId
    rw [finishDocs_modelId cfg _ (preRunState cfg embedFn corpus st)]
    exact preRunState_modelId cfg embedFn corpus st
  have hst2model : (preRunState cfg embedFn corpus st).modelId = st.modelId :=
    preRunState_modelId cfg embedFn corpus st
  have hlookPrev : lookupA (finishDocs cfg (preRunState cfg embedFn corpus st)
      ((changedDocs false st.lastIndexedHash
        (currentDocs cfg corpus)).take i)).lastIndexedHash D.path =
      lookupA st.lastIndexedHash D.path := by
    have hpres := finishDocs_other cfg
      ((changedDocs false st.lastIndexedHash (currentDocs cfg corpus)).take i)
      (preRunState cfg embedFn corpus st) D.path hDnotTake
    rw [hpres.2, preRunState_hash]
    exact (removePhase_kept (currentDocs cfg corpus) st D.path ⟨D, hDcur, rfl⟩).1
  have hnotcommitted : lookupA (crashStateAt cfg embedFn corpus st i j).lastIndexedHash
      D.path ≠ some D.hash := by
    rw [hChash, hlookPrev]
    exact (isChanged_true_iff st.lastIndexedHash D).mp hDchanged
  refine ⟨hnotcommitted, ?_, ?_, ?_⟩
  · -- documents committed before the crash have their full row sets
    intro d hd
    have htakeN : (((changedDocs false st.lastIndexedHash
        (currentDocs cfg corpus)).take i).map (fun x => x.path)).Nodup := by
      refine List.Nodup.sublist ?_ hchN
      exact List.Sublist.map _ (List.take_sublist i _)
    have hmem := finishDocs_mem cfg
      ((changedDocs false st.lastIndexedHash (currentDocs cfg corpus)).take i)
      (preRunState cfg embedFn corpus st) d hd htakeN
    have hdD : d.path ≠ D.path := fun hc => hDnotTake d hd hc.symm
    constructor
    · rw [hCst]
      unfold rowsFor
      rw [List.filter_append]
      have hpart2 : ((docRows cfg (preRunState cfg embedFn corpus st).cache
          (preRunState cfg embedFn corpus st).modelId D).take j).filter
          (fun r => r.path == d.path) = [] := by
        refine List.filter_eq_nil_iff.mpr ?_
        intro r hr
        have hrD : r.path = D.path :=
          docRows_path cfg (preRunState cfg embedFn corpus st).cache
            (preRunState cfg embedFn corpus st).modelId D r (List.take_subset j _ hr)
        simp [hrD, Ne.symm hdD]
      have hpart1 : ((finishDocs cfg (preRunState cfg embedFn corpus st)
          ((changedDocs false st.lastIndexedHash
            (currentDocs cfg corpus)).take i)).store.filter
          (fun r => r.path != D.path)).filter (fun r => r.path == d.path) =
          rowsFor (finishDocs cfg (preRunState cfg embedFn corpus st)
            ((changedDocs false st.lastIndexedHash
              (currentDocs cfg corpus)).take i)).store d.path := by
        exact rowsFor_filter_keep _ _ d.path (fun r _ hrp => by simp [hrp, hdD])
      rw [hpart2, List.append_nil, hpart1, hmem.1, hCcache, hst2model]
    · rw [hChash]
      exact hmem.2
  · -- the next run treats D as changed again
    rw [changedDocs_false, List.mem_filter]
    exact ⟨hDcur, (isChanged_true_iff _ D).mpr hnotcommitted⟩
  · -- and it ends with exactly one complete row set for D, committed
    obtain ⟨_, h2, _, _⟩ := updateIndex_run_spec cfg embedFn corpus
      (crashStateAt cfg embedFn corpus st i j) hN
    have hres := h2 D hDcur ((isChanged_true_iff _ D).mpr hnotcommitted)
    rw [hCmodel] at hres
    exact hres

/-- Witness for C3 at a concrete corpus with two new documents,
crashing on the first (`i = 0`) after zero stored rows (`j = 0`). -/
theorem updateIndex_crash_safety_witness :
    ((currentDocs { chunkSize := 8, includePatterns := [], excludePatterns := [] }
        [{ path := "a.md", hash := "h1", content := "alpha" },
         { path := "b.md", hash := "h2", content := "beta" }]).map
      (fun d => d.path)).Nodup ∧
    (changedDocs false ([] : List (String × String))
        (currentDocs { chunkSize := 8, includePatterns := [], excludePatterns := [] }
          [{ path := "a.md", hash := "h1", content := "alpha" },
           { path := "b.md", hash := "h2", content := "beta" }]))[0]? =
      some { path := "a.md", hash := "h1", content := "alpha" } ∧
    lookupA (crashStateAt { chunkSize := 8, includePatterns := [], excludePatterns := [] }
        (fun _ => [1]) [{ path := "a.md", hash := "h1", content := "alpha" },
          { path := "b.md", hash := "h2", content := "beta" }]
        { modelId := "m", lastIndexedHash := [], store := [], cache := [] } 0 0).lastIndexedHash
      "a.md" ≠ some "h1" := by
  refine ⟨by decide, by decide, ?_⟩
  have h := updateIndex_crash_safety
    { chunkSize := 8, includePatterns := [], excludePatterns := [] }
    (fun _ => [1])
    [{ path := "a.md", hash := "h1", content := "alpha" },
     { path := "b.md", hash := "h2", content := "beta" }]
    { modelId := "m", lastIndexedHash := [], store := [], cache := [] } 0 0
    { path := "a.md", hash := "h1", content := "alpha" }
    (by decide) (by decide)
  exact h.1

/-- **C4**: running `updateIndex({reindexAll:false})` twice with the
same corpus makes zero embedding-provider calls in the second run and
leaves the whole engine state — in particular `IndexState` — unchanged
after the second run. -/
theorem updateIndex_idempotent (cfg : RagCfg) (embedFn : String → List ℚ)
    (corpus : List VaultFile) (st : EngineState)
    (hN : ((currentDocs cfg corpus).map (fun d => d.path)).Nodup) :
    (updateIndex false cfg embedFn corpus
        (updateIndex false cfg embedFn corpus st).1).2 = [] ∧
    (updateIndex false cfg embedFn corpus
        (updateIndex false cfg embedFn corpus st).1).1 =
      (updateIndex false cfg embedFn corpus st).1 := by
  obtain ⟨h1, h2, _, h4⟩ := updateIndex_run_spec cfg embedFn corpus st hN
  set res1 := (updateIndex false cfg embedFn corpus st).1 with hres1
  have hcommitted : ∀ d ∈ currentDocs cfg corpus,
      lookupA res1.lastIndexedHash d.path = some d.hash := by
    intro d hd
    cases hb : isChanged st.lastIndexedHash d
    · exact (h1 d hd hb).2
    · exact (h2 d hd hb).2
  have hchanged2 : changedDocs false res1.lastIndexedHash (currentDocs cfg corpus) = [] := by
    rw [changedDocs_false]
    refine List.filter_eq_nil_iff.mpr ?_
    intro d hd
    rw [(isChanged_false_iff res1.lastIndexedHash d).mpr (hcommitted d hd)]
    simp
  have hkeys : ∀ e ∈ res1.lastIndexedHash, ∃ d ∈ currentDocs cfg corpus, d.path = e.1 := by
    intro e he
    exact h4 e.1 ((lookupA_ne_none_iff res1.lastIndexedHash e.1).mpr ⟨e, he, rfl⟩)
  have hrp : removePhase (currentDocs cfg corpus) res1 = res1 :=
    removePhase_id (currentDocs cfg corpus) res1 hkeys
  rw [updateIndex_unfold cfg embedFn corpus res1 false, hchanged2, hrp]
  exact ⟨rfl, rfl⟩

/-- **C5**: chunking is deterministic — the chunk boundaries and
content hashes produced by `chunk(document, config)` are a function of
the document text and the configuration alone, with no dependence on
any other state: two documents with identical text (but arbitrary
differing path, adapter hash, or any other surroundings) yield
identical boundary sequences and identical content-hash sequences, and
repeating the call yields the identical result again. -/
theorem chunkDoc_deterministic (d1 d2 : VaultFile) (chunkSize : ℕ)
    (hc : d1.content = d2.content) :
    chunkDoc chunkSize d1.content = chunkDoc chunkSize d2.content ∧
    (chunkDoc chunkSize d1.content).map (fun c => (c.start, c.stop)) =
      (chunkDoc chunkSize d2.content).map (fun c => (c.start, c.stop)) ∧
    (chunkDoc chunkSize d1.content).map (fun c => contentHash c.text) =
      (chunkDoc chunkSize d2.content).map (fun c => contentHash c.text) := by
  rw [hc]
  exact ⟨rfl, rfl, rfl⟩

/-- Witness for C5: two documents with the same text but different
paths and adapter hashes chunk identically. -/
theorem chunkDoc_deterministic_witness :
    ({ path := "a.md", hash := "h1", content := "one\n\ntwo" } : VaultFile).content =
      ({ path := "b.md", hash := "h2", content := "one\n\ntwo" } : VaultFile).content ∧
    chunkDoc 5 ({ path := "a.md", hash := "h1", content := "one\n\ntwo" } : VaultFile).content =
      chunkDoc 5 ({ path := "b.md", hash := "h2", content := "one\n\ntwo" } : VaultFile).content := by
  refine ⟨by decide, ?_⟩
  exact (chunkDoc_deterministic
    { path := "a.md", hash := "h1", content := "one\n\ntwo" }
    { path := "b.md", hash := "h2", content := "one\n\ntwo" } 5 (by decide)).1

/-- Witness for C4 at a concrete two-document corpus. -/
theorem updateIndex_idempotent_witness :
    ((currentDocs { chunkSize := 8, includePatterns := [], excludePatterns := [] }
        [{ path := "a.md", hash := "h1", content := "hello world" },
         { path := "b.md", hash := "h2", content := "second file" }]).map
      (fun d => d.path)).Nodup ∧
    (updateIndex false { chunkSize := 8, includePatterns := [], excludePatterns := [] }
        (fun _ => [1, 0])
        [{ path := "a.md", hash := "h1", content := "hello world" },
         { path := "b.md", hash := "h2", content := "second file" }]
        (updateIndex false { chunkSize := 8, includePatterns := [], excludePatterns := [] }
            (fun _ => [1, 0])
            [{ path := "a.md", hash := "h1", content := "hello world" },
             { path := "b.md", hash := "h2", content := "second file" }]
            { modelId := "m", lastIndexedHash := [], store := [], cache := [] }).1).2 = [] ∧
    (updateIndex false { chunkSize := 8, includePatterns := [], excludePatterns := [] }
        (fun _ => [1, 0])
        [{ path := "a.md", hash := "h1", content := "hello world" },
         { path := "b.md", hash := "h2", content := "second file" }]
        (updateIndex false { chunkSize := 8, includePatterns := [], excludePatterns := [] }
            (fun _ => [1, 0])
            [{ path := "a.md", hash := "h1", content := "hello world" },
             { path := "b.md", hash := "h2", content := "second file" }]
            { modelId := "m", lastIndexedHash := [], store := [], cache := [] }).1).1 =
      (updateIndex false { chunkSize := 8, includePatterns := [], excludePatterns := [] }
          (fun _ => [1, 0])
          [{ path := "a.md", hash := "h1", content := "hello world" },
           { path := "b.md", hash := "h2", content := "second file" }]
          { modelId := "m", lastIndexedHash := [], store := [], cache := [] }).1 := by
  refine ⟨by decide, ?_⟩
  exact updateIndex_idempotent
    { chunkSize := 8, includePatterns := [], excludePatterns := [] }
    (fun _ => [1, 0])
    [{ path := "a.md", hash := "h1", content := "hello world" },
     { path := "b.md", hash := "h2", content := "second file" }]
    { modelId := "m", lastIndexedHash := [], store := [], cache := [] }
    (by decide)

/-- **C6**: when, for every batch of an `updateIndex` run, the provider
rate-limits a bounded number of initial attempts (strictly below the
retry ceiling) and then succeeds, the run completes successfully with
an `Except.ok` result — the `RateLimited` error is never surfaced — and
the progress signals report `waitingForRateLimit = true` exactly during
the retries of each batch, followed by a `false` signal on the batch's
success. -/
theorem updateIndex_rate_limit_resilience (reindexAll : Bool) (cfg : RagCfg)
    (batchSize fuel : ℕ) (provider : ℕ → ℕ → EmbedOutcome) (corpus : List VaultFile)
    (st : EngineState) (k : ℕ → ℕ) (vecs : ℕ → List (List ℚ))
    (hscen : ∀ i, i < (batchSplit batchSize (missTexts st.cache st.modelId
        (stagedTexts cfg (changedDocs reindexAll st.lastIndexedHash
          (currentDocs cfg corpus))))).length →
      k i < fuel ∧ (∀ a, a < k i → provider i a = EmbedOutcome.rateLimited) ∧
        provider i (k i) = EmbedOutcome.ok (vecs i)) :
    (updateIndexWithProvider reindexAll cfg batchSize provider fuel corpus st).1 =
      ((List.range (batchSplit batchSize (missTexts st.cache st.modelId
          (stagedTexts cfg (changedDocs reindexAll st.lastIndexedHash
            (currentDocs cfg corpus))))).length).map
        (fun i => List.replicate (k i) true ++ [false])).flatten ∧
    ∃ out : EngineState × ℕ,
      (updateIndexWithProvider reindexAll cfg batchSize provider fuel corpus st).2 =
        Except.ok out := by
  have hB := embedBatchesFrom_scenario provider fuel k vecs
    (batchSplit batchSize (missTexts st.cache st.modelId
      (stagedTexts cfg (changedDocs reindexAll st.lastIndexedHash
        (currentDocs cfg corpus))))) 0
    (fun i hi => by simpa using hscen i hi)
  unfold updateIndexWithProvider
  dsimp only
  rw [hB]
  refine ⟨by simp, ?_⟩
  exact ⟨_, rfl⟩

/-- Witness for C6: one batch, rate-limited on the first two attempts,
accepted on the third, under a retry ceiling of five. -/
theorem updateIndex_rate_limit_resilience_witness :
    (∀ i, i < (batchSplit 10 (missTexts ([] : List ((String × ℕ) × List ℚ)) "m"
        (stagedTexts { chunkSize := 10, includePatterns := [], excludePatterns := [] }
          (changedDocs false ([] : List (String × String))
            (currentDocs { chunkSize := 10, includePatterns := [], excludePatterns := [] }
              [{ path := "a.md", hash := "h1", content := "hello" }]))))).length →
      (fun _ : ℕ => 2) i < 5 ∧
        (∀ a, a < (fun _ : ℕ => 2) i →
          (fun _ a : ℕ => if a < 2 then EmbedOutcome.rateLimited
            else EmbedOutcome.ok [[1]]) i a = EmbedOutcome.rateLimited) ∧
        (fun _ a : ℕ => if a < 2 then EmbedOutcome.rateLimited
          else EmbedOutcome.ok [[1]]) i ((fun _ : ℕ => 2) i) =
          EmbedOutcome.ok ((fun _ : ℕ => [[1]]) i)) ∧
    ∃ out : EngineState × ℕ,
      (updateIndexWithProvider false
        { chunkSize := 10, includePatterns := [], excludePatterns := [] } 10
        (fun _ a : ℕ => if a < 2 then EmbedOutcome.rateLimited
          else EmbedOutcome.ok [[1]]) 5
        [{ path := "a.md", hash := "h1", content := "hello" }]
        { modelId := "m", lastIndexedHash := [], store := [], cache := [] }).2 =
        Except.ok out := by
  have hscen : ∀ i : ℕ, i < (batchSplit 10 (missTexts ([] : List ((String × ℕ) × List ℚ)) "m"
      (stagedTexts { chunkSize := 10, includePatterns := [], excludePatterns := [] }
        (changedDocs false ([] : List (String × String))
          (currentDocs { chunkSize := 10, includePatterns := [], excludePatterns := [] }
            [{ path := "a.md", hash := "h1", content := "hello" }]))))).length →
      (2 : ℕ) < 5 ∧
        (∀ a, a < 2 →
          (if a < 2 then EmbedOutcome.rateLimited else EmbedOutcome.ok [[1]]) =
            EmbedOutcome.rateLimited) ∧
        (if (2 : ℕ) < 2 then EmbedOutcome.rateLimited else EmbedOutcome.ok [[1]]) =
          EmbedOutcome.ok [[1]] := by
    intro i _
    exact ⟨by norm_num, fun a ha => by simp [ha], by norm_num⟩
  refine ⟨fun i hi => hscen i hi, ?_⟩
  exact (updateIndex_rate_limit_resilience false
    { chunkSize := 10, includePatterns := [], excludePatterns := [] } 10 5
    (fun _ a : ℕ => if a < 2 then EmbedOutcome.rateLimited else EmbedOutcome.ok [[1]])
    [{ path := "a.md", hash := "h1", content := "hello" }]
    { modelId := "m", lastIndexedHash := [], store := [], cache := [] }
    (fun _ => 2) (fun _ => [[1]]) (fun i hi => hscen i hi)).2

/-- **C7**: the configuration consumed by the engine is exactly
`ragOptions` — `chunkSize`, `thresholdTokens`, `minSimilarity`,
`limit`, `includePatterns`, `excludePatterns` — plus the separately
selected `embeddingModelId`: two settings values that agree on those
produce identical indexing and retrieval behaviour whatever their other
fields are; and each of these fields is present in the settings schema
with its declared default. -/
theorem engine_config_surface (s1 s2 : SmartComposerSettings)
    (hR : s1.ragOptions = s2.ragOptions)
    (hM : s1.embeddingModelId = s2.embeddingModelId) :
    (∀ (reindexAll : Bool) (embedFn : String → List ℚ) (corpus : List VaultFile)
        (st : EngineState),
        engineUpdateIndex s1 reindexAll embedFn corpus st =
          engineUpdateIndex s2 reindexAll embedFn corpus st) ∧
    (∀ (contextTokens : ℚ) (st : EngineState) (qv : List ℚ),
        engineQuery s1 contextTokens st qv = engineQuery s2 contextTokens st qv) ∧
    (∀ env : SchemaEnv, ∃ s : SmartComposerSettings,
        parseSmartComposerSettings env (some (Json.obj [])) = Except.ok s ∧
        s.ragOptions = { chunkSize := 1000, thresholdTokens := 8192, minSimilarity := 0,
                         limit := 10, excludePatterns := [], includePatterns := [] } ∧
        s.embeddingModelId = env.defaultEmbeddingModelId) := by
  refine ⟨?_, ?_, ?_⟩
  · intro reindexAll embedFn corpus st
    unfold engineUpdateIndex ragCfgOf
    rw [hR, hM]
  · intro contextTokens st qv
    unfold engineQuery queryCfgOf
    rw [hR, hM]
  · intro env
    exact ⟨_, rfl, rfl, rfl⟩

/-- Witness for C7: two settings differing only in `chatModelId` (and
`systemPrompt`) behave identically. -/
theorem engine_config_surface_witness :
    ({ version := 1, providers := [], chatModels := [], embeddingModels := [],
       chatModelId := "gpt", applyModelId := "gpt", embeddingModelId := "emb",
       systemPrompt := "", ragOptions := defaultRagOptions, mcpServers := [],
       chatOptions := { includeCurrentFileContent := true, enableTools := true,
                        maxAutoIterations := 1 },
       editorAutocomplete := { enabled := true, minChars := 5, debounceMs := 300,
                               maxTokens := 50, temperature := 1/5 } } :
      SmartComposerSettings).ragOptions =
    ({ version := 1, providers := [], chatModels := [], embeddingModels := [],
       chatModelId := "claude", applyModelId := "gpt", embeddingModelId := "emb",
       systemPrompt := "other", ragOptions := defaultRagOptions, mcpServers := [],
       chatOptions := { includeCurrentFileContent := true, enableTools := true,
                        maxAutoIterations := 1 },
       editorAutocomplete := { enabled := true, minChars := 5, debounceMs := 300,
                               maxTokens := 50, temperature := 1/5 } } :
      SmartComposerSettings).ragOptions ∧
    ∀ (contextTokens : ℚ) (st : EngineState) (qv : List ℚ),
      engineQuery
        { version := 1, providers := [], chatModels := [], embeddingModels := [],
          chatModelId := "gpt", applyModelId := "gpt", embeddingModelId := "emb",
          systemPrompt := "", ragOptions := defaultRagOptions, mcpServers := [],
          chatOptions := { includeCurrentFileContent := true, enableTools := true,
                           maxAutoIterations := 1 },
          editorAutocomplete := { enabled := true, minChars := 5, debounceMs := 300,
                                  maxTokens := 50, temperature := 1/5 } }
        contextTokens st qv =
      engineQuery
        { version := 1, providers := [], chatModels := [], embeddingModels := [],
          chatModelId := "claude", applyModelId := "gpt", embeddingModelId := "emb",
          systemPrompt := "other", ragOptions := defaultRagOptions, mcpServers := [],
          chatOptions := { includeCurrentFileContent := true, enableTools := true,
                           maxAutoIterations := 1 },
          editorAutocomplete := { enabled := true, minChars := 5, debounceMs := 300,
                                  maxTokens := 50, temperature := 1/5 } }
        contextTokens st qv := by
  refine ⟨rfl, ?_⟩
  exact (engine_config_surface
    { version := 1, providers := [], chatModels := [], embeddingModels := [],
      chatModelId := "gpt", applyModelId := "gpt", embeddingModelId := "emb",
      systemPrompt := "", ragOptions := defaultRagOptions, mcpServers := [],
      chatOptions := { includeCurrentFileContent := true, enableTools := true,
                       maxAutoIterations := 1 },
      editorAutocomplete := { enabled := true, minChars := 5, debounceMs := 300,
                              maxTokens := 50, temperature := 1/5 } }
    { version := 1, providers := [], chatModels := [], embeddingModels := [],
      chatModelId := "claude", applyModelId := "gpt", embeddingModelId := "emb",
      systemPrompt := "other", ragOptions := defaultRagOptions, mcpServers := [],
      chatOptions := { includeCurrentFileContent := true, enableTools := true,
                       maxAutoIterations := 1 },
      editorAutocomplete := { enabled := true, minChars := 5, debounceMs := 300,
                              maxTokens := 50, temperature := 1/5 } }
    rfl rfl).2.1

/-- **C8**: `AzureOpenAIProvider.getEmbedding` throws its
"does not support embeddings" error for every model and text — it never
returns a vector, so an Azure OpenAI provider can never serve as the
embedding capability. -/
theorem azureGetEmbedding_always_fails (providerId model text : String) :
    azureOpenAIGetEmbedding providerId model text =
      Except.error ("Provider " ++ providerId ++
        " does not support embeddings. Please use a different provider.") ∧
    ∀ v : List ℚ, azureOpenAIGetEmbedding providerId model text ≠ Except.ok v := by
  refine ⟨rfl, ?_⟩
  intro v h
  simp [azureOpenAIGetEmbedding] at h

/-- **C9**: when the new settings value fails schema validation,
`setSettings` shows a notice and returns early: the stored settings,
the persisted data, the RAG engine's settings, the listener calls, and
the autocomplete state are all left unchanged. -/
theorem setSettings_invalid_is_atomic (env : SchemaEnv) (p : PluginState)
    (newSettings : Json)
    (hfail : parseSmartComposerSettings env (some newSettings) = Except.error ()) :
    setSettings env p newSettings =
      { p with notices := p.notices ++ ["Invalid settings"] } ∧
    (setSettings env p newSettings).settings = p.settings ∧
    (setSettings env p newSettings).savedData = p.savedData ∧
    (setSettings env p newSettings).ragEngineSettings = p.ragEngineSettings ∧
    (setSettings env p newSettings).listenerCalls = p.listenerCalls ∧
    (setSettings env p newSettings).autocompleteActive = p.autocompleteActive := by
  have h : setSettings env p newSettings =
      { p with notices := p.notices ++ ["Invalid settings"] } := by
    unfold setSettings
    rw [hfail]
  exact ⟨h, by rw [h], by rw [h], by rw [h], by rw [h], by rw [h]⟩

/-- Witness for C9: a `null` settings value fails validation and leaves
a concrete plugin state unchanged. -/
theorem setSettings_invalid_is_atomic_witness :
    parseSmartComposerSettings
      { schemaVersion := 1, providerOk := fun _ => true, chatModelOk := fun _ => true,
        embeddingModelOk := fun _ => true, mcpServerOk := fun _ => true,
        defaultProviders := [], defaultChatModels := [], defaultEmbeddingModels := [],
        defaultChatModelId := "c", defaultApplyModelId := "a",
        defaultEmbeddingModelId := "e" } (some Json.null) = Except.error () ∧
    (setSettings
      { schemaVersion := 1, providerOk := fun _ => true, chatModelOk := fun _ => true,
        embeddingModelOk := fun _ => true, mcpServerOk := fun _ => true,
        defaultProviders := [], defaultChatModels := [], defaultEmbeddingModels := [],
        defaultChatModelId := "c", defaultApplyModelId := "a",
        defaultEmbeddingModelId := "e" }
      { settings := Json.obj [], savedData := [], ragEngineSettings := none,
        listenerCalls := [], autocompleteActive := false, notices := [] }
      Json.null).settings = Json.obj [] := by
  refine ⟨rfl, ?_⟩
  have h := setSettings_invalid_is_atomic
    { schemaVersion := 1, providerOk := fun _ => true, chatModelOk := fun _ => true,
      embeddingModelOk := fun _ => true, mcpServerOk := fun _ => true,
      defaultProviders := [], defaultChatModels := [], defaultEmbeddingModels := [],
      defaultChatModelId := "c", defaultApplyModelId := "a",
      defaultEmbeddingModelId := "e" }
    { settings := Json.obj [], savedData := [], ragEngineSettings := none,
      listenerCalls := [], autocompleteActive := false, notices := [] }
    Json.null rfl
  exact h.2.1

/-- Counterexample for C10 as stated: the top-level
`smartComposerSettingsSchema` object carries no `.catch`, so a
non-object input such as `null` fails validation instead of falling
back to defaults. -/
theorem parseSettings_null_counterexample :
    parseSmartComposerSettings
      { schemaVersion := 1, providerOk := fun _ => true, chatModelOk := fun _ => true,
        embeddingModelOk := fun _ => true, mcpServerOk := fun _ => true,
        defaultProviders := [], defaultChatModels := [], defaultEmbeddingModels := [],
        defaultChatModelId := "c", defaultApplyModelId := "a",
        defaultEmbeddingModelId := "e" } (some Json.null) = Except.error () := rfl

/-- **C10** (amended): for every JSON *object* input — with arbitrarily
malformed, missing, or wrongly-typed fields — parsing with
`smartComposerSettingsSchema` succeeds, because every top-level field
carries a catch-fallback; a missing or invalid field is replaced by its
declared default, and in particular `ragOptions` falls back to
`chunkSize 1000, thresholdTokens 8192, minSimilarity 0.0, limit 10` and
empty pattern lists.  (Non-object inputs are rejected: the object
itself carries no catch.) -/
theorem parseSettings_object_total (env : SchemaEnv) (fields : List (String × Json)) :
    (∃ s : SmartComposerSettings,
      parseSmartComposerSettings env (some (Json.obj fields)) = Except.ok s) ∧
    parseSmartComposerSettings env (some (Json.obj [])) = Except.ok
      { version := env.schemaVersion, providers := env.defaultProviders,
        chatModels := env.defaultChatModels,
        embeddingModels := env.defaultEmbeddingModels,
        chatModelId := env.defaultChatModelId,
        applyModelId := env.defaultApplyModelId,
        embeddingModelId := env.defaultEmbeddingModelId, systemPrompt := "",
        ragOptions := defaultRagOptions, mcpServers := [],
        chatOptions := { includeCurrentFileContent := true, enableTools := true,
                         maxAutoIterations := 1 },
        editorAutocomplete := { enabled := true, minChars := 5, debounceMs := 300,
                                maxTokens := 50, temperature := 1/5 } } ∧
    (∀ (s : SmartComposerSettings) (j : Json), getField fields "ragOptions" = some j →
      parseRagOptions (some j) = Except.error () →
      parseSmartComposerSettings env (some (Json.obj fields)) = Except.ok s →
      s.ragOptions = defaultRagOptions) ∧
    (∀ s : SmartComposerSettings, getField fields "ragOptions" = none →
      parseSmartComposerSettings env (some (Json.obj fields)) = Except.ok s →
      s.ragOptions = defaultRagOptions) := by
  refine ⟨⟨_, rfl⟩, rfl, ?_, ?_⟩
  · intro s j hj herr hok
    unfold parseSmartComposerSettings at hok
    injection hok with hs
    rw [← hs]
    show zCatch parseRagOptions defaultRagOptions (getField fields "ragOptions") =
      defaultRagOptions
    rw [hj]
    unfold zCatch
    rw [herr]
  · intro s hnone hok
    unfold parseSmartComposerSettings at hok
    injection hok with hs
    rw [← hs]
    show zCatch parseRagOptions defaultRagOptions (getField fields "ragOptions") =
      defaultRagOptions
    rw [hnone]
    rfl

/-- Witness for the amended C10: an object whose `ragOptions` is a
string still parses, with `ragOptions` replaced by the defaults. -/
theorem parseSettings_object_total_witness :
    getField [("ragOptions", Json.str "bad")] "ragOptions" = some (Json.str "bad") ∧
    parseRagOptions (some (Json.str "bad")) = Except.error () ∧
    ∃ s : SmartComposerSettings,
      parseSmartComposerSettings
        { schemaVersion := 1, providerOk := fun _ => true, chatModelOk := fun _ => true,
          embeddingModelOk := fun _ => true, mcpServerOk := fun _ => true,
          defaultProviders := [], defaultChatModels := [], defaultEmbeddingModels := [],
          defaultChatModelId := "c", defaultApplyModelId := "a",
          defaultEmbeddingModelId := "e" }
        (some (Json.obj [("ragOptions", Json.str "bad")])) = Except.ok s ∧
      s.ragOptions = defaultRagOptions := by
  refine ⟨rfl, rfl, ?_⟩
  obtain ⟨s, hs⟩ := (parseSettings_object_total
    { schemaVersion := 1, providerOk := fun _ => true, chatModelOk := fun _ => true,
      embeddingModelOk := fun _ => true, mcpServerOk := fun _ => true,
      defaultProviders := [], defaultChatModels := [], defaultEmbeddingModels := [],
      defaultChatModelId := "c", defaultApplyModelId := "a",
      defaultEmbeddingModelId := "e" } [("ragOptions", Json.str "bad")]).1
  refine ⟨s, hs, ?_⟩
  exact (parseSettings_object_total
    { schemaVersion := 1, providerOk := fun _ => true, chatModelOk := fun _ => true,
      embeddingModelOk := fun _ => true, mcpServerOk := fun _ => true,
      defaultProviders := [], defaultChatModels := [], defaultEmbeddingModels := [],
      defaultChatModelId := "c", defaultApplyModelId := "a",
      defaultEmbeddingModelId := "e" } [("ragOptions", Json.str "bad")]).2.2.1 s
    (Json.str "bad") rfl rfl hs

end SmartComposer
